import Mathlib

/-!
Verification of the AVO attribute computation and cube-merge pipeline of the
Prestack_characterization_tool repository.

The development shallowly embeds the pipeline:
  * the SEG-Y data model used through segyio (traces with fixed header fields
    and a sample vector, volumes with inline/crossline/offset axes);
  * `Survey.validation` and `Survey.merge` from Main.py;
  * `AVOModule.files_from_np`, `AVOModule.attributes_computation` and
    `AVOModule.index_generator` from AVO.py;
  * `input_generator` and `AVO_attributes_computation_2` from source/avo.py;
  * scipy.stats.linregress (the library routine the code delegates to), in
    exact real arithmetic.

Machine floats are modelled by exact reals; sample payloads of merge-level
results are kept polymorphic so that witnesses can evaluate over ℚ.
-/

namespace PrestackTool

/-- Trace header restricted to the fields the pipeline reads or writes.
Field names follow segyio.su keywords; the byte offsets used by the source
(`f.header[i][1]`, `[5]`, `[9]`, `[21]`, `[25]`, `[37]`, `[71]`, `[115]`,
`[117]`, `[181]`, `[185]`, `[189]`, `[193]`) correspond to tracl, tracr,
fldr, cdp, cdpt, offset, scalco, ns, dt, cdpx, cdpy, iline, xline. -/
structure TraceHeader where
  tracl : Int
  tracr : Int
  fldr : Int
  cdp : Int
  cdpt : Int
  offset : Int
  scalco : Int
  ns : Int
  dt : Int
  cdpx : Int
  cdpy : Int
  iline : Int
  xline : Int
deriving DecidableEq, Repr

/-- The all-zero header: segyio initializes unset header words to 0. -/
def headerZero : TraceHeader :=
  ⟨0, 0, 0, 0, 0, 0, 0, 0, 0, 0, 0, 0, 0⟩

/-- One trace: a header plus its sample vector (`segy.trace[i]`). -/
structure Trace (α : Type) where
  header : TraceHeader
  data : List α
deriving DecidableEq, Repr

/-- Default trace used for out-of-range accesses. -/
def emptyTrace {α : Type} : Trace α := ⟨headerZero, []⟩

/-- A seismic volume as segyio presents it: the inline and crossline number
axes (`segy.ilines`, `segy.xlines`), the sample time axis (`segy.samples`),
the offset axis (`segy.offsets`) and the flat, inline-sorted trace list
(`segy.trace`). -/
structure SegyVolume (α : Type) where
  ilines : List Int
  xlines : List Int
  samples : List ℚ
  offsets : List Int
  traces : List (Trace α)
deriving DecidableEq, Repr

/-- The empty volume, used as an out-of-range default. -/
def emptyVolume {α : Type} : SegyVolume α := ⟨[], [], [], [], []⟩

/-! ### Generic list lemmas used by the indexing arguments -/

/-- Length of a flat map whose blocks all have the same length. -/
theorem length_flatMap_const {α β : Type} (l : List α) (f : α → List β) (c : ℕ)
    (hc : ∀ a ∈ l, (f a).length = c) :
    (l.flatMap f).length = l.length * c := by
  induction l with
  | nil => simp
  | cons a t ih =>
    rw [List.flatMap_cons, List.length_append, hc a (List.mem_cons_self a t),
      ih (fun b hb => hc b (List.mem_cons_of_mem a hb))]
    simp [List.length_cons]
    ring

/-- Element access in a flat map whose blocks all have the same length:
position `q * c + r` lands in block `q` at offset `r`. -/
theorem flatMap_getD_const {α β : Type} (l : List α) (f : α → List β) (c : ℕ)
    (hc : ∀ a ∈ l, (f a).length = c) (q r : ℕ) (hq : q < l.length) (hr : r < c)
    (d : β) (da : α) :
    (l.flatMap f).getD (q * c + r) d = (f (l.getD q da)).getD r d := by
  induction l generalizing q with
  | nil => exact absurd hq (by simp)
  | cons a t ih =>
    rw [List.flatMap_cons]
    cases q with
    | zero =>
      have hra : r < (f a).length := by
        rw [hc a (List.mem_cons_self a t)]; exact hr
      rw [Nat.zero_mul, Nat.zero_add, List.getD_append _ _ _ _ hra]
      rfl
    | succ q' =>
      have hfa : (f a).length = c := hc a (List.mem_cons_self a t)
      have hidx : (q' + 1) * c + r = (f a).length + (q' * c + r) := by
        rw [hfa]; ring
      have hq' : q' < t.length := by
        simpa [List.length_cons] using Nat.lt_of_succ_lt_succ hq
      rw [hidx, List.getD_append_right, Nat.add_sub_cancel_left]
      · rw [ih (fun b hb => hc b (List.mem_cons_of_mem a hb)) q' hq']
        rfl
      · exact Nat.le_add_right _ _

/-- A sum of nonnegative reals containing a positive member is positive. -/
theorem list_sum_pos_of_mem {l : List ℝ} (h0 : ∀ a ∈ l, 0 ≤ a) {a : ℝ}
    (ha : a ∈ l) (hpos : 0 < a) : 0 < l.sum := by
  induction l with
  | nil => exact absurd ha (List.not_mem_nil a)
  | cons b t ih =>
    rw [List.sum_cons]
    rcases List.mem_cons.mp ha with hab | hat
    · have ht : 0 ≤ t.sum := List.sum_nonneg (fun x hx => h0 x (List.mem_cons_of_mem b hx))
      calc 0 < a := hpos
        _ = b := hab.symm ▸ rfl
        _ ≤ b + t.sum := le_add_of_nonneg_right ht
    · have hb : 0 ≤ b := h0 b (List.mem_cons_self b t)
      have := ih (fun x hx => h0 x (List.mem_cons_of_mem b hx)) hat
      linarith

/-! ### Survey.validation (Main.py lines 316-350)

A path is abstracted by the two facts the code queries about it:
`os.path.isfile` and the `os.path.splitext` extension. -/

/-- What `Survey.validation` observes about one input file. -/
structure FileStat where
  path_exists : Bool
  extension : String
deriving DecidableEq, Repr

/-- One partial angle stack input: its file facts plus the volume segyio
would read at that path. -/
structure AngleStackFile (α : Type) where
  stat : FileStat
  volume : SegyVolume α
deriving DecidableEq, Repr

/-- Python's `str.lower()`, character by character. -/
def pyLower (s : String) : List Char := s.data.map Char.toLower

/-- Second validation of Main.py line 323:
`ext.lower() == ".sgy" or ext.lower() == ".segy"`. -/
def sgyOk (ext : String) : Bool :=
  pyLower ext == ".sgy".data || pyLower ext == ".segy".data

/-- Wells-branch extension check of Main.py line 342: `ext.lower() == ".txt"`. -/
def txtOk (ext : String) : Bool :=
  pyLower ext == ".txt".data

/-- The cube loop of `Survey.validation` (Main.py lines 316-335).  The flag
argument is the current value of the `cube_validation` class attribute; the
loop returns early (second component `some message`) at the first failing
file, leaving the remaining files unexamined. -/
def cubeLoop : List FileStat → Bool → Bool × Option String
  | [], flag => (flag, none)
  | f :: rest, _ =>
    if f.path_exists then
      if sgyOk f.extension then cubeLoop rest true
      else (false, some "Cube file extension in not valid.")
    else (false, some "Cube file does not exist.")

/-- The wells loop of `Survey.validation` (Main.py lines 338-350). -/
def wellsLoop : List FileStat → Bool → Bool × Option String
  | [], flag => (flag, none)
  | d :: rest, _ =>
    if d.path_exists then
      if txtOk d.extension then wellsLoop rest true
      else (false, some "Wells file extension in not valid.")
    else (false, some "Wells file does not exist.")

/-- Result of `Survey.validation`: the two class-attribute flags plus the
returned message (None when the method falls through). -/
structure ValidationResult where
  cube : Bool
  wells : Bool
  message : Option String
deriving DecidableEq, Repr

/-- Embedding of `Survey.validation` (Main.py lines 261-350): runs the cube loop, and only
when it did not return early, the wells loop. -/
def surveyValidation (gathers wells : List FileStat) (priorCube priorWells : Bool) :
    ValidationResult :=
  match cubeLoop gathers priorCube with
  | (c, some m) => ⟨c, priorWells, some m⟩
  | (c, none) =>
    match wellsLoop wells priorWells with
    | (w, m) => ⟨c, w, m⟩

/-! ### Survey.merge (Main.py lines 352-458) -/

/-- Body of the merge loop for loop counters `(i, j, k)` over
(ilines, xlines, offsets).  `stack_index` starts at 0 and is incremented once
per (inline, crossline) pair in lexicographic order, so when the loop reaches
counters `(i, j)` its value is `i * xlines.length + j`.  The header words are
read from `f.header[stack_index]` (`f` is the FIRST gather, Main.py lines
429-441), the offset word is set to the current angle, the iline/xline words
to the current line numbers, and the samples are copied from the stack whose
position in `gathers_path` is `angle_list.index(offset)` (lines 444-450). -/
def mergeTraceFor {α : Type} (f : SegyVolume α) (stackVols : List (SegyVolume α))
    (angles : List Int) (i j k : ℕ) : Trace α :=
  let il := f.ilines.getD i 0
  let xl := f.xlines.getD j 0
  let angle := angles.getD k 0
  let stackIndex := i * f.xlines.length + j
  let h0 := (f.traces.getD stackIndex emptyTrace).header
  let fileIndex := angles.indexOf angle
  let src := stackVols.getD fileIndex emptyVolume
  { header :=
      { tracl := h0.tracl, tracr := h0.tracr, fldr := h0.fldr, cdp := h0.cdp,
        cdpt := h0.cdpt, offset := angle, scalco := h0.scalco, ns := h0.ns,
        dt := h0.dt, cdpx := h0.cdpx, cdpy := h0.cdpy, iline := il, xline := xl },
    data := (src.traces.getD stackIndex emptyTrace).data }

/-- The merged volume built by `Survey.merge` once validation has passed
(Main.py lines 402-453): geometry and sample axis are taken from the first
gather `f`, the offset axis is `angle_list`, and the traces are produced by
the triple loop inline-major, crossline-next, angle-minor. -/
def mergeVolume {α : Type} (f : SegyVolume α) (stackVols : List (SegyVolume α))
    (angles : List Int) : SegyVolume α where
  ilines := f.ilines
  xlines := f.xlines
  samples := f.samples
  offsets := angles
  traces :=
    (List.range f.ilines.length).flatMap fun i =>
      (List.range f.xlines.length).flatMap fun j =>
        (List.range angles.length).map fun k =>
          mergeTraceFor f stackVols angles i j k

/-- Observable outcome of `Survey.merge`: the success branch returns the new
volume and the success string (Main.py line 455), the else branch returns the
not-suitable string (line 458), and an empty gathers list under a true flag
would raise IndexError at `self.gathers_path[0]`. -/
inductive MergeOutcome (α : Type) where
  | success (vol : SegyVolume α) (msg : String)
  | notSuitable (msg : String)
  | crash (msg : String)
deriving DecidableEq, Repr

/-- Whether a merge outcome is the success branch. -/
def MergeOutcome.isSuccess {α : Type} : MergeOutcome α → Bool
  | .success _ _ => true
  | _ => false

/-- Embedding of `Survey.merge` (Main.py lines 352-458): re-runs `Survey.validation`, then
merges only when the `cube_validation` flag ended up true.  The success
message interpolates `merge_path`, which is not modelled. -/
def surveyMerge {α : Type} (gathers : List (AngleStackFile α)) (wells : List FileStat)
    (angles : List Int) (priorCube priorWells : Bool) : MergeOutcome α :=
  let v := surveyValidation (gathers.map (·.stat)) wells priorCube priorWells
  if v.cube then
    match gathers with
    | [] => .crash "IndexError: list index out of range"
    | g :: rest =>
      .success (mergeVolume g.volume ((g :: rest).map (·.volume)) angles)
        "Successful merge. New SEG-Y file path: merge_path"
  else
    .notSuitable "The provided files are not suitable for characterization"

/-! ### Block-indexing lemmas for the merged trace list -/

/-- Length of a triple nested block list over counter ranges. -/
theorem flatMap3_length {β : Type} (I J K : ℕ) (g : ℕ → ℕ → ℕ → β) :
    ((List.range I).flatMap fun a => (List.range J).flatMap fun b =>
      (List.range K).map fun c => g a b c).length = I * J * K := by
  rw [length_flatMap_const _ _ (J * K), List.length_range, Nat.mul_assoc]
  intro a _
  rw [length_flatMap_const _ _ K, List.length_range]
  intro b _
  simp

/-- Element access in a triple nested block list over counter ranges. -/
theorem flatMap3_getD {β : Type} (I J K : ℕ) (g : ℕ → ℕ → ℕ → β) (i j k : ℕ)
    (hi : i < I) (hj : j < J) (hk : k < K) (d : β) :
    ((List.range I).flatMap fun a => (List.range J).flatMap fun b =>
      (List.range K).map fun c => g a b c).getD (i * (J * K) + (j * K + k)) d =
      g i j k := by
  have hJK : j * K + k < J * K := by
    have h1 : j * K + k < j * K + K := Nat.add_lt_add_left hk _
    have h3 : (j + 1) * K ≤ J * K := Nat.mul_le_mul_right _ (Nat.succ_le_of_lt hj)
    have h2 : j * K + K = (j + 1) * K := by ring
    omega
  rw [flatMap_getD_const (List.range I) _ (J * K)
      (fun a _ => by
        rw [length_flatMap_const _ _ K (fun b _ => by simp), List.length_range])
      i (j * K + k) (by simpa using hi) hJK d 0]
  rw [List.getD_eq_getElem (List.range I) 0 (by simpa using hi), List.getElem_range]
  rw [flatMap_getD_const (List.range J) _ K (fun b _ => by simp) j k
      (by simpa using hj) hk d 0]
  rw [List.getD_eq_getElem (List.range J) 0 (by simpa using hj), List.getElem_range]
  rw [List.getD_eq_getElem _ _ (by simpa using hk), List.getElem_map, List.getElem_range]

/-- Length of the merged trace list. -/
theorem mergeVolume_traces_length {α : Type} (f : SegyVolume α)
    (stackVols : List (SegyVolume α)) (angles : List Int) :
    (mergeVolume f stackVols angles).traces.length =
      f.ilines.length * f.xlines.length * angles.length := by
  unfold mergeVolume
  exact flatMap3_length _ _ _ _

/-- The merged trace at flat position `i*J*K + j*K + k` is the one the loop
built for counters `(i, j, k)`. -/
theorem mergeVolume_traces_getD {α : Type} (f : SegyVolume α)
    (stackVols : List (SegyVolume α)) (angles : List Int) (i j k : ℕ)
    (hi : i < f.ilines.length) (hj : j < f.xlines.length) (hk : k < angles.length) :
    (mergeVolume f stackVols angles).traces.getD
        (i * f.xlines.length * angles.length + j * angles.length + k) emptyTrace =
      mergeTraceFor f stackVols angles i j k := by
  have hsplit : i * f.xlines.length * angles.length + j * angles.length + k =
      i * (f.xlines.length * angles.length) + (j * angles.length + k) := by ring
  unfold mergeVolume
  rw [hsplit]
  exact flatMap3_getD _ _ _ _ i j k hi hj hk emptyTrace

/-! ### Facts about Survey.validation used by the error-handling claims -/

/-- The `cube_validation` flag after `Survey.validation` is exactly the cube
loop result; the wells loop never touches it. -/
theorem surveyValidation_cube (gathers wells : List FileStat) (pc pw : Bool) :
    (surveyValidation gathers wells pc pw).cube = (cubeLoop gathers pc).1 := by
  unfold surveyValidation
  rcases h : cubeLoop gathers pc with ⟨c, m⟩
  cases m with
  | none =>
    rcases hw : wellsLoop wells pw with ⟨w, mw⟩
    simp
  | some msg => simp

/-- For a nonempty gathers list the cube loop succeeds exactly when every file
exists and has a `.sgy`/`.segy` extension. -/
theorem cubeLoop_true_iff (gs : List FileStat) (prior : Bool) (hne : gs ≠ []) :
    ((cubeLoop gs prior).1 = true ↔
      ∀ f ∈ gs, f.path_exists = true ∧ sgyOk f.extension = true) := by
  induction gs generalizing prior with
  | nil => exact absurd rfl hne
  | cons f rest ih =>
    cases hp : f.path_exists with
    | false => simp [cubeLoop, hp]
    | true =>
      cases hs : sgyOk f.extension with
      | false => simp [cubeLoop, hp, hs]
      | true =>
        rcases rest with _ | ⟨r, rs⟩
        · simp [cubeLoop, hp, hs]
        · rw [show cubeLoop (f :: r :: rs) prior = cubeLoop (r :: rs) true by
            simp [cubeLoop, hp, hs]]
          rw [ih true (by simp)]
          simp [hp, hs]

/-- Rewriting `Survey.merge` in terms of the cube loop flag. -/
theorem surveyMerge_eq {α : Type} (gathers : List (AngleStackFile α))
    (wells : List FileStat) (angles : List Int) (pc pw : Bool) :
    surveyMerge gathers wells angles pc pw =
      if (cubeLoop (gathers.map (·.stat)) pc).1 = true then
        match gathers with
        | [] => .crash "IndexError: list index out of range"
        | g :: rest =>
          .success (mergeVolume g.volume ((g :: rest).map (·.volume)) angles)
            "Successful merge. New SEG-Y file path: merge_path"
      else .notSuitable "The provided files are not suitable for characterization" := by
  unfold surveyMerge
  simp only [surveyValidation_cube]

/-- A gathers list containing an invalid file fails the cube loop. -/
theorem cubeLoop_false_of_bad (gs : List FileStat) (prior : Bool)
    (hbad : ∃ f ∈ gs, ¬(f.path_exists = true ∧ sgyOk f.extension = true)) :
    (cubeLoop gs prior).1 = false := by
  rcases hbad with ⟨f, hf, hnf⟩
  have hne : gs ≠ [] := List.ne_nil_of_mem hf
  cases hflag : (cubeLoop gs prior).1 with
  | false => rfl
  | true => exact absurd (((cubeLoop_true_iff gs prior hne).mp hflag) f hf) hnf

/-! ### Claim theorems about the merge engine -/

/-- C1.  For geometry-compatible angle stacks and any in-range triple
(inline position `i`, crossline position `j`, angle position `k`), the merged
trace at that triple carries the angle in its offset header word and the
sample vector of the angle-matched stack at the same (inline, crossline)
position. -/
theorem merge_ordering {α : Type} (stackVols : List (SegyVolume α)) (angles : List Int)
    (hne : stackVols ≠ []) (hnd : angles.Nodup) (hlen : stackVols.length = angles.length)
    (hgeom : ∀ s ∈ stackVols,
      s.ilines = (stackVols.headD emptyVolume).ilines ∧
      s.xlines = (stackVols.headD emptyVolume).xlines ∧
      s.samples.length = (stackVols.headD emptyVolume).samples.length)
    (i j k : ℕ) (hi : i < (stackVols.headD emptyVolume).ilines.length)
    (hj : j < (stackVols.headD emptyVolume).xlines.length)
    (hk : k < angles.length) :
    (((mergeVolume (stackVols.headD emptyVolume) stackVols angles).traces.getD
        (i * (stackVols.headD emptyVolume).xlines.length * angles.length +
          j * angles.length + k) emptyTrace).header.offset = angles.getD k 0) ∧
    ((mergeVolume (stackVols.headD emptyVolume) stackVols angles).traces.getD
        (i * (stackVols.headD emptyVolume).xlines.length * angles.length +
          j * angles.length + k) emptyTrace).data =
      ((stackVols.getD k emptyVolume).traces.getD
        (i * (stackVols.headD emptyVolume).xlines.length + j) emptyTrace).data := by
  rw [mergeVolume_traces_getD _ _ _ i j k hi hj hk]
  have hidx : angles.indexOf (angles.getD k 0) = k := by
    rw [List.getD_eq_getElem _ _ hk]
    exact List.indexOf_getElem hnd k hk
  unfold mergeTraceFor
  simp only [hidx]
  simp

/-- C4.  The merged volume has `N * K` traces, with
`N = |ilines| * |xlines|` the per-stack trace count and `K` the number of
angles. -/
theorem merge_trace_count {α : Type} (stackVols : List (SegyVolume α))
    (angles : List Int) (N : ℕ) (hne : stackVols ≠ [])
    (hN : ∀ s ∈ stackVols, s.traces.length = N)
    (hgrid : N = (stackVols.headD emptyVolume).ilines.length *
      (stackVols.headD emptyVolume).xlines.length) :
    (mergeVolume (stackVols.headD emptyVolume) stackVols angles).traces.length =
      N * angles.length := by
  rw [mergeVolume_traces_length, hgrid]

/-- A trace header with its offset word cleared; two headers agree on this
projection exactly when they differ at most in the offset word. -/
def headerSansOffset (h : TraceHeader) : TraceHeader :=
  { h with offset := 0 }

/-- C9.  Every copied header word of a merged trace comes from the FIRST
supplied stack at the same (inline, crossline) position; consequently the
traces of one gather agree on every header word except the offset, while each
trace's samples come from its angle-matched stack. -/
theorem merge_headers_from_first_stack {α : Type} (stackVols : List (SegyVolume α))
    (angles : List Int) (hne : stackVols ≠ []) (hnd : angles.Nodup)
    (hlen : stackVols.length = angles.length)
    (i j k k' : ℕ) (hi : i < (stackVols.headD emptyVolume).ilines.length)
    (hj : j < (stackVols.headD emptyVolume).xlines.length)
    (hk : k < angles.length) (hk' : k' < angles.length) :
    (((mergeVolume (stackVols.headD emptyVolume) stackVols angles).traces.getD
        (i * (stackVols.headD emptyVolume).xlines.length * angles.length +
          j * angles.length + k) emptyTrace).header.tracl =
      ((stackVols.headD emptyVolume).traces.getD
        (i * (stackVols.headD emptyVolume).xlines.length + j) emptyTrace).header.tracl ∧
     ((mergeVolume (stackVols.headD emptyVolume) stackVols angles).traces.getD
        (i * (stackVols.headD emptyVolume).xlines.length * angles.length +
          j * angles.length + k) emptyTrace).header.tracr =
      ((stackVols.headD emptyVolume).traces.getD
        (i * (stackVols.headD emptyVolume).xlines.length + j) emptyTrace).header.tracr ∧
     ((mergeVolume (stackVols.headD emptyVolume) stackVols angles).traces.getD
        (i * (stackVols.headD emptyVolume).xlines.length * angles.length +
          j * angles.length + k) emptyTrace).header.fldr =
      ((stackVols.headD emptyVolume).traces.getD
        (i * (stackVols.headD emptyVolume).xlines.length + j) emptyTrace).header.fldr ∧
     ((mergeVolume (stackVols.headD emptyVolume) stackVols angles).traces.getD
        (i * (stackVols.headD emptyVolume).xlines.length * angles.length +
          j * angles.length + k) emptyTrace).header.cdp =
      ((stackVols.headD emptyVolume).traces.getD
        (i * (stackVols.headD emptyVolume).xlines.length + j) emptyTrace).header.cdp ∧
     ((mergeVolume (stackVols.headD emptyVolume) stackVols angles).traces.getD
        (i * (stackVols.headD emptyVolume).xlines.length * angles.length +
          j * angles.length + k) emptyTrace).header.cdpt =
      ((stackVols.headD emptyVolume).traces.getD
        (i * (stackVols.headD emptyVolume).xlines.length + j) emptyTrace).header.cdpt ∧
     ((mergeVolume (stackVols.headD emptyVolume) stackVols angles).traces.getD
        (i * (stackVols.headD emptyVolume).xlines.length * angles.length +
          j * angles.length + k) emptyTrace).header.scalco =
      ((stackVols.headD emptyVolume).traces.getD
        (i * (stackVols.headD emptyVolume).xlines.length + j) emptyTrace).header.scalco ∧
     ((mergeVolume (stackVols.headD emptyVolume) stackVols angles).traces.getD
        (i * (stackVols.headD emptyVolume).xlines.length * angles.length +
          j * angles.length + k) emptyTrace).header.ns =
      ((stackVols.headD emptyVolume).traces.getD
        (i * (stackVols.headD emptyVolume).xlines.length + j) emptyTrace).header.ns ∧
     ((mergeVolume (stackVols.headD emptyVolume) stackVols angles).traces.getD
        (i * (stackVols.headD emptyVolume).xlines.length * angles.length +
          j * angles.length + k) emptyTrace).header.dt =
      ((stackVols.headD emptyVolume).traces.getD
        (i * (stackVols.headD emptyVolume).xlines.length + j) emptyTrace).header.dt ∧
     ((mergeVolume (stackVols.headD emptyVolume) stackVols angles).traces.getD
        (i * (stackVols.headD emptyVolume).xlines.length * angles.length +
          j * angles.length + k) emptyTrace).header.cdpx =
      ((stackVols.headD emptyVolume).traces.getD
        (i * (stackVols.headD emptyVolume).xlines.length + j) emptyTrace).header.cdpx ∧
     ((mergeVolume (stackVols.headD emptyVolume) stackVols angles).traces.getD
        (i * (stackVols.headD emptyVolume).xlines.length * angles.length +
          j * angles.length + k) emptyTrace).header.cdpy =
      ((stackVols.headD emptyVolume).traces.getD
        (i * (stackVols.headD emptyVolume).xlines.length + j) emptyTrace).header.cdpy) ∧
    headerSansOffset
      (((mergeVolume (stackVols.headD emptyVolume) stackVols angles).traces.getD
        (i * (stackVols.headD emptyVolume).xlines.length * angles.length +
          j * angles.length + k) emptyTrace).header) =
    headerSansOffset
      (((mergeVolume (stackVols.headD emptyVolume) stackVols angles).traces.getD
        (i * (stackVols.headD emptyVolume).xlines.length * angles.length +
          j * angles.length + k') emptyTrace).header) ∧
    ((mergeVolume (stackVols.headD emptyVolume) stackVols angles).traces.getD
        (i * (stackVols.headD emptyVolume).xlines.length * angles.length +
          j * angles.length + k) emptyTrace).data =
      ((stackVols.getD k emptyVolume).traces.getD
        (i * (stackVols.headD emptyVolume).xlines.length + j) emptyTrace).data := by
  rw [mergeVolume_traces_getD _ _ _ i j k hi hj hk,
    mergeVolume_traces_getD _ _ _ i j k' hi hj hk']
  have hidx : angles.indexOf (angles.getD k 0) = k := by
    rw [List.getD_eq_getElem _ _ hk]
    exact List.indexOf_getElem hnd k hk
  unfold mergeTraceFor headerSansOffset
  simp only [hidx]
  simp

/-! ### Concrete volumes used by witnesses and counterexamples -/

/-- A tiny angle stack over ℚ: one inline, two crosslines, two samples. -/
def stackW1 : SegyVolume ℚ :=
  ⟨[1], [1, 2], [0, 4], [0],
   [⟨⟨11, 21, 31, 41, 51, 0, -100, 2, 4000, 500, 600, 1, 1⟩, [1, 2]⟩,
    ⟨⟨12, 22, 32, 42, 52, 0, -100, 2, 4000, 501, 601, 1, 2⟩, [3, 4]⟩]⟩

/-- A second geometry-compatible angle stack over ℚ. -/
def stackW2 : SegyVolume ℚ :=
  ⟨[1], [1, 2], [0, 4], [0],
   [⟨⟨81, 82, 83, 84, 85, 0, 7, 2, 4000, 900, 901, 1, 1⟩, [5, 6]⟩,
    ⟨⟨86, 87, 88, 89, 90, 0, 7, 2, 4000, 902, 903, 1, 2⟩, [7, 8]⟩]⟩

/-- A stack whose geometry disagrees with `stackW1` (different inline axis,
different sample count). -/
def stackMis : SegyVolume ℚ :=
  ⟨[7, 8, 9], [1], [0], [5],
   [⟨headerZero, [9]⟩, ⟨headerZero, [9]⟩, ⟨headerZero, [9]⟩]⟩

/-- File facts of an existing `.sgy` path. -/
def fsOk : FileStat := ⟨true, ".sgy"⟩

/-- Two valid gather files with compatible geometry. -/
def gathersOkA : List (AngleStackFile ℚ) := [⟨fsOk, stackW1⟩, ⟨fsOk, stackW2⟩]

/-- Two valid gather files whose volumes have mismatched geometry; the file
facts coincide with those of `gathersOkA`. -/
def gathersOkB : List (AngleStackFile ℚ) := [⟨fsOk, stackW1⟩, ⟨fsOk, stackMis⟩]

/-- Witness for `merge_ordering`: two 2-trace stacks, angles [5, 10], triple
(i, j, k) = (0, 1, 1); the merged trace at flat position 3 carries offset 10
and the samples of the second stack at crossline position 1. -/
theorem merge_ordering_witness :
    (([5, 10] : List Int).Nodup ∧
     ([stackW1, stackW2] : List (SegyVolume ℚ)).length = ([5, 10] : List Int).length) ∧
    ((mergeVolume stackW1 [stackW1, stackW2] [5, 10]).traces.getD 3
        emptyTrace).header.offset = 10 ∧
    ((mergeVolume stackW1 [stackW1, stackW2] [5, 10]).traces.getD 3
        emptyTrace).data = [7, 8] := by
  refine ⟨⟨by decide, by decide⟩, ?_, ?_⟩
  · exact (merge_ordering [stackW1, stackW2] [5, 10] (by decide) (by decide) (by decide)
      (by decide) 0 1 1 (by decide) (by decide) (by decide)).1
  · exact (merge_ordering [stackW1, stackW2] [5, 10] (by decide) (by decide) (by decide)
      (by decide) 0 1 1 (by decide) (by decide) (by decide)).2

/-- Witness for `merge_trace_count`: two 2-trace stacks and two angles give a
4-trace merged volume. -/
theorem merge_trace_count_witness :
    ((∀ s ∈ ([stackW1, stackW2] : List (SegyVolume ℚ)), s.traces.length = 2) ∧
     (2 : ℕ) = stackW1.ilines.length * stackW1.xlines.length) ∧
    (mergeVolume stackW1 [stackW1, stackW2] [5, 10]).traces.length =
      2 * ([5, 10] : List Int).length := by
  refine ⟨⟨by decide, by decide⟩, ?_⟩
  exact merge_trace_count [stackW1, stackW2] [5, 10] 2 (by decide) (by decide) (by decide)

/-- Witness for `merge_headers_from_first_stack`: in the merged gather at
(i, j) = (0, 0), both angle traces take their header words from `stackW1`
(tracl 11), agree up to the offset word, and the second angle trace carries
the samples of `stackW2`. -/
theorem merge_headers_witness :
    (([5, 10] : List Int).Nodup ∧
     ([stackW1, stackW2] : List (SegyVolume ℚ)).length = ([5, 10] : List Int).length) ∧
    ((mergeVolume stackW1 [stackW1, stackW2] [5, 10]).traces.getD 0
        emptyTrace).header.tracl = 11 ∧
    headerSansOffset ((mergeVolume stackW1 [stackW1, stackW2] [5, 10]).traces.getD 0
        emptyTrace).header =
      headerSansOffset ((mergeVolume stackW1 [stackW1, stackW2] [5, 10]).traces.getD 1
        emptyTrace).header ∧
    ((mergeVolume stackW1 [stackW1, stackW2] [5, 10]).traces.getD 1
        emptyTrace).data = [5, 6] := by
  refine ⟨⟨by decide, by decide⟩, ?_, ?_, ?_⟩
  · exact ((merge_headers_from_first_stack [stackW1, stackW2] [5, 10] (by decide)
      (by decide) (by decide) 0 0 0 1 (by decide) (by decide) (by decide) (by decide)).1).1
  · exact (merge_headers_from_first_stack [stackW1, stackW2] [5, 10] (by decide)
      (by decide) (by decide) 0 0 0 1 (by decide) (by decide) (by decide) (by decide)).2.1
  · exact (merge_headers_from_first_stack [stackW1, stackW2] [5, 10] (by decide)
      (by decide) (by decide) 0 0 1 0 (by decide) (by decide) (by decide) (by decide)).2.2

/-! ### Claim theorems about validation and the merge guard -/

/-- C6 (amended).  `Survey.validation` never compares geometry: its outcome,
and whether the merge proceeds, depend only on the per-file facts
(existence, extension); and a missing or mis-extended file makes the merge
return the not-suitable message instead of merging. -/
theorem merge_validation_geometry_blind {α : Type} (g1 g2 : List (AngleStackFile α))
    (wells : List FileStat) (angles : List Int) (pw : Bool)
    (hstat : g1.map (·.stat) = g2.map (·.stat)) :
    ((surveyValidation (g1.map (·.stat)) wells false pw).cube =
      (surveyValidation (g2.map (·.stat)) wells false pw).cube) ∧
    ((surveyMerge g1 wells angles false pw).isSuccess =
      (surveyMerge g2 wells angles false pw).isSuccess) ∧
    ((∃ f ∈ g1.map (·.stat), ¬(f.path_exists = true ∧ sgyOk f.extension = true)) →
      surveyMerge g1 wells angles false pw =
        .notSuitable "The provided files are not suitable for characterization") := by
  refine ⟨by rw [hstat], ?_, ?_⟩
  · rcases g1 with _ | ⟨a, t⟩ <;> rcases g2 with _ | ⟨b, u⟩
    · rfl
    · exact absurd hstat (by simp)
    · exact absurd hstat (by simp)
    · rw [surveyMerge_eq, surveyMerge_eq, hstat]
      by_cases hcl : (cubeLoop ((b :: u).map (·.stat)) false).1 = true
      · rw [if_pos hcl, if_pos hcl]
        rfl
      · rw [if_neg hcl, if_neg hcl]
  · intro hbad
    rw [surveyMerge_eq]
    have hfl := cubeLoop_false_of_bad (g1.map (·.stat)) false hbad
    rw [if_neg (by simp [hfl])]

/-- Witness for `merge_validation_geometry_blind`: two gather lists with the
same file facts but geometry-incompatible volumes validate identically and
both merge. -/
theorem merge_validation_geometry_blind_witness :
    (gathersOkA.map (·.stat) = gathersOkB.map (·.stat)) ∧
    ((surveyValidation (gathersOkA.map (·.stat)) [] false false).cube =
      (surveyValidation (gathersOkB.map (·.stat)) [] false false).cube) ∧
    ((surveyMerge gathersOkA [] [5, 10] false false).isSuccess =
      (surveyMerge gathersOkB [] [5, 10] false false).isSuccess) ∧
    ((∃ f ∈ gathersOkA.map (·.stat), ¬(f.path_exists = true ∧ sgyOk f.extension = true)) →
      surveyMerge gathersOkA [] [5, 10] false false =
        .notSuitable "The provided files are not suitable for characterization") :=
  ⟨by decide, merge_validation_geometry_blind gathersOkA gathersOkB [] [5, 10] false (by decide)⟩

/-- Counterexample to C6 as stated: two supplied stacks disagree on both the
inline axis and the sample count, yet validation sets `cube_validation` and
the merge proceeds to the success branch; no GeometryMismatch failure exists. -/
theorem validation_passes_geometry_mismatch :
    stackW1.ilines ≠ stackMis.ilines ∧
    stackW1.samples.length ≠ stackMis.samples.length ∧
    (surveyValidation (gathersOkB.map (·.stat)) [] false false).cube = true ∧
    (surveyMerge gathersOkB [] [5, 10] false false).isSuccess = true := by
  decide

/-- C10 (amended).  For a nonempty gathers list and a fresh (false) cube
flag, the merge proceeds exactly when every gathers path exists and has a
`.sgy`/`.segy` extension; the wells paths never influence the outcome; and
when the check fails the result is the not-suitable message, with no volume
built. -/
theorem merge_runs_iff {α : Type} (gathers : List (AngleStackFile α))
    (wells : List FileStat) (angles : List Int) (pw : Bool) (hne : gathers ≠ []) :
    ((surveyMerge gathers wells angles false pw).isSuccess = true ↔
      ∀ g ∈ gathers, g.stat.path_exists = true ∧ sgyOk g.stat.extension = true) ∧
    (∀ wells', surveyMerge gathers wells angles false pw =
      surveyMerge gathers wells' angles false pw) ∧
    ((surveyMerge gathers wells angles false pw).isSuccess = false →
      surveyMerge gathers wells angles false pw =
        .notSuitable "The provided files are not suitable for characterization") := by
  have hmapne : gathers.map (·.stat) ≠ [] := by simpa using hne
  refine ⟨?_, ?_, ?_⟩
  · rw [surveyMerge_eq]
    by_cases hcl : (cubeLoop (gathers.map (·.stat)) false).1 = true
    · rw [if_pos hcl]
      rcases gathers with _ | ⟨a, t⟩
      · exact absurd rfl hne
      · constructor
        · intro _
          have hall := (cubeLoop_true_iff _ false hmapne).mp hcl
          intro g hg
          exact hall g.stat (List.mem_map_of_mem _ hg)
        · intro _
          rfl
    · rw [if_neg hcl]
      constructor
      · intro hfalse
        exact absurd hfalse (by simp [MergeOutcome.isSuccess])
      · intro hall
        exfalso
        apply hcl
        apply (cubeLoop_true_iff _ false hmapne).mpr
        intro f hf
        rcases List.mem_map.mp hf with ⟨g, hg, heq⟩
        rw [← heq]
        exact hall g hg
  · intro wells'
    rw [surveyMerge_eq, surveyMerge_eq]
  · intro hfail
    rw [surveyMerge_eq] at hfail ⊢
    by_cases hcl : (cubeLoop (gathers.map (·.stat)) false).1 = true
    · rw [if_pos hcl] at hfail
      rcases gathers with _ | ⟨a, t⟩
      · exact absurd rfl hne
      · exact absurd hfail (by simp [MergeOutcome.isSuccess])
    · rw [if_neg hcl]

/-- Witness for `merge_runs_iff` on two valid gather files. -/
theorem merge_runs_iff_witness :
    (gathersOkA ≠ []) ∧
    ((surveyMerge gathersOkA [] [5, 10] false false).isSuccess = true ↔
      ∀ g ∈ gathersOkA, g.stat.path_exists = true ∧ sgyOk g.stat.extension = true) ∧
    (∀ wells', surveyMerge gathersOkA [] [5, 10] false false =
      surveyMerge gathersOkA wells' [5, 10] false false) ∧
    ((surveyMerge gathersOkA [] [5, 10] false false).isSuccess = false →
      surveyMerge gathersOkA [] [5, 10] false false =
        .notSuitable "The provided files are not suitable for characterization") :=
  ⟨by decide, merge_runs_iff gathersOkA [] [5, 10] false (by decide)⟩

/-- Counterexample to C10 as stated: for an EMPTY gathers list every path
vacuously exists with a valid extension, yet the merge does not run; the
`cube_validation` flag keeps its initial false value and the not-suitable
message is returned. -/
theorem merge_empty_gathers_refused :
    ([] : List (AngleStackFile ℚ)).all
      (fun g => g.stat.path_exists && sgyOk g.stat.extension) = true ∧
    surveyMerge ([] : List (AngleStackFile ℚ)) [] [5] false false =
      .notSuitable "The provided files are not suitable for characterization" := by
  decide

/-! ### scipy.stats.linregress in exact real arithmetic

The code (AVO.py lines 303-335, source/avo.py lines 141-167) delegates the
per-sample regression to `scipy.stats.linregress(sins, amp[row])`.  The
routine is embedded here: the mean-based population sums of squares of
`np.cov(x, y, bias=1)`, the guarded correlation coefficient, the slope and
intercept, and the two branches for `n == 2` and `n > 2`.  The Student t
survival function used by the p-value is an external scipy routine; it is
passed in as the parameter `sf` and never evaluated by any claim. -/

/-- np.mean of a list (junk value for the empty list). -/
noncomputable def npmean (l : List ℝ) : ℝ := l.sum / l.length

/-- np.amax (junk value on the empty list, on which numpy raises). -/
noncomputable def npamax (l : List ℝ) : ℝ := l.foldl max (l.headD 0)

/-- np.amin (junk value on the empty list). -/
noncomputable def npamin (l : List ℝ) : ℝ := l.foldl min (l.headD 0)

/-- The entry `ssxm` of `np.cov(x, y, bias=1)`: population variance of x. -/
noncomputable def ssxmOf (x : List ℝ) : ℝ :=
  npmean (x.map fun v => (v - npmean x) ^ 2)

/-- The entry `ssym`: population variance of y. -/
noncomputable def ssymOf (y : List ℝ) : ℝ :=
  npmean (y.map fun v => (v - npmean y) ^ 2)

/-- The entry `ssxym`: population covariance of x and y. -/
noncomputable def ssxymOf (x y : List ℝ) : ℝ :=
  npmean (List.zipWith (fun a b => (a - npmean x) * (b - npmean y)) x y)

/-- The correlation coefficient as linregress computes it: 0 when the
denominator `sqrt(ssxm*ssym)` vanishes, otherwise `ssxym / sqrt(ssxm*ssym)`
clipped into [-1, 1]. -/
noncomputable def rvalueOf (x y : List ℝ) : ℝ :=
  if Real.sqrt (ssxmOf x * ssymOf y) = 0 then 0
  else if 1 < ssxymOf x y / Real.sqrt (ssxmOf x * ssymOf y) then 1
  else if ssxymOf x y / Real.sqrt (ssxmOf x * ssymOf y) < -1 then -1
  else ssxymOf x y / Real.sqrt (ssxmOf x * ssymOf y)

/-- The slope `ssxym / ssxm`. -/
noncomputable def slopeOf (x y : List ℝ) : ℝ := ssxymOf x y / ssxmOf x

/-- The intercept `ymean - slope * xmean`. -/
noncomputable def interceptOf (x y : List ℝ) : ℝ :=
  npmean y - slopeOf x y * npmean x

/-- t statistic of the slope for the `n > 2` branch, with scipy's TINY
guard. -/
noncomputable def tvalueOf (x y : List ℝ) : ℝ :=
  rvalueOf x y * Real.sqrt (((x.length - 2 : ℕ) : ℝ) /
    ((1 - rvalueOf x y + 1e-20) * (1 + rvalueOf x y + 1e-20)))

/-- Two-sided p-value `2 * sf(|t|, df)`. -/
noncomputable def pvalueOf (sf : ℝ → ℕ → ℝ) (x y : List ℝ) : ℝ :=
  2 * sf |tvalueOf x y| (x.length - 2)

/-- Standard error of the slope for the `n > 2` branch. -/
noncomputable def stderrOf (x y : List ℝ) : ℝ :=
  Real.sqrt ((1 - rvalueOf x y ^ 2) * ssymOf y / ssxmOf x / ((x.length - 2 : ℕ) : ℝ))

/-- The five outputs of `scipy.stats.linregress`. -/
structure LinregressResult where
  slope : ℝ
  intercept : ℝ
  rvalue : ℝ
  pvalue : ℝ
  stderr : ℝ

/-- Message of the ValueError scipy raises on a zero-variance x input. -/
def identicalXMsg : String :=
  "ValueError: Cannot calculate a linear regression if all x values are identical"

/-- Message of the ValueError `np.cov(x, y, bias=1)` raises inside linregress
when x and y have different lengths. -/
def covMismatchMsg : String :=
  "ValueError: all the input array dimensions must match exactly"

/-- Embedding of `scipy.stats.linregress(x, y)`: raises (returns `.error`) on empty
input and on an identical-x input; then `np.cov(x, y, bias=1)` raises when
the two inputs disagree in length; otherwise it returns the five regression
outputs, with the special `n == 2` case for the p-value and standard
error. -/
noncomputable def linregress (sf : ℝ → ℕ → ℝ) (x y : List ℝ) :
    Except String LinregressResult :=
  if x.length = 0 ∨ y.length = 0 then
    .error "ValueError: Inputs must not be empty."
  else if npamax x = npamin x ∧ 1 < x.length then
    .error identicalXMsg
  else if x.length ≠ y.length then
    .error covMismatchMsg
  else if x.length = 2 then
    .ok ⟨slopeOf x y, interceptOf x y, rvalueOf x y,
      if y.getD 0 0 = y.getD 1 0 then 1 else 0, 0⟩
  else
    .ok ⟨slopeOf x y, interceptOf x y, rvalueOf x y, pvalueOf sf x y, stderrOf x y⟩

/-! ### The per-location AVO computation
(AVOModule.attributes_computation, AVO.py lines 231-354; identically
AVO_attributes_computation_2, source/avo.py lines 83-167) -/

/-- Embedding of `np.radians`. -/
noncomputable def radians (a : Int) : ℝ := (a : ℝ) * Real.pi / 180

/-- One entry of the `sins` list:
`np.sin(np.radians(angle)) * np.sin(np.radians(angle))`. -/
noncomputable def sinSq (a : Int) : ℝ := Real.sin (radians a) * Real.sin (radians a)

/-- The `sins` list built by the comprehension over `angle_list`. -/
noncomputable def sinsOf (angles : List Int) : List ℝ := angles.map sinSq

/-- Embedding of `segy_file.gather[iline, xline, angle]` on an inline-sorted prestack
volume: the single trace whose flat position is determined by the positions
of the line numbers and the offset value on their axes. -/
def gatherTrace {α : Type} (vol : SegyVolume α) (il xl angle : Int) : List α :=
  (vol.traces.getD
    (vol.ilines.indexOf il * (vol.xlines.length * vol.offsets.length) +
      vol.xlines.indexOf xl * vol.offsets.length +
      vol.offsets.indexOf angle) emptyTrace).data

/-- The angle columns the amp-building loop ends with (AVO.py lines
321-330, source/avo.py lines 149-161): the loop tests
`if angle == angle_list[0]` by VALUE, so every later occurrence of the first
angle RE-INITIALIZES `amp` to a single column, while any other angle appends
its column.  For an angle list that never repeats its first entry this is
the whole list; an empty angle list leaves `amp` unbound in Python (a
NameError at `amp.shape`), a case no claim quantifies over. -/
def ampAngles (angles : List Int) : List Int :=
  angles.foldl
    (fun acc angle => if angle = angles.headD 0 then [angle] else acc ++ [angle]) []

/-- The matrix `amp` built by the re-initializing loop and then read row by
row: row `s` holds the amplitudes of sample `s` across the surviving angle
columns. -/
def ampRows (vol : SegyVolume ℝ) (angles : List Int) (il xl : Int) : List (List ℝ) :=
  (List.range vol.samples.length).map fun s =>
    (ampAngles angles).map fun angle => (gatherTrace vol il xl angle).getD s 0

/-- Appending fold steps over angles that never hit the re-initializing
value. -/
theorem ampAngles_foldl_no_repeat (a0 : Int) (t : List Int) (acc : List Int)
    (h : ∀ x ∈ t, x ≠ a0) :
    t.foldl (fun acc angle => if angle = a0 then [angle] else acc ++ [angle]) acc =
      acc ++ t := by
  induction t generalizing acc with
  | nil => simp
  | cons b u ih =>
    rw [List.foldl_cons, if_neg (h b (List.mem_cons_self b u)),
      ih (acc ++ [b]) (fun x hx => h x (List.mem_cons_of_mem b hx))]
    simp

/-- When no later angle repeats the first, the loop keeps one column per
angle-list entry. -/
theorem ampAngles_eq_self (angles : List Int)
    (h : ∀ x ∈ angles.tail, x ≠ angles.headD 0) : ampAngles angles = angles := by
  rcases angles with _ | ⟨a, t⟩
  · rfl
  · unfold ampAngles
    simp only [List.headD_cons, List.foldl_cons, if_pos rfl, ite_true,
      List.nil_append]
    rw [ampAngles_foldl_no_repeat a t [a] (by simpa using h)]
    rfl

/-- Both branches of the loop body leave a nonempty accumulator. -/
theorem foldl_reinit_ne_nil (a0 : Int) (t : List Int) (acc : List Int)
    (hacc : acc ≠ []) :
    t.foldl (fun acc angle => if angle = a0 then [angle] else acc ++ [angle]) acc ≠
      [] := by
  induction t generalizing acc with
  | nil => exact hacc
  | cons b u ih =>
    rw [List.foldl_cons]
    by_cases hb : b = a0
    · rw [if_pos hb]
      exact ih [b] (by simp)
    · rw [if_neg hb]
      exact ih (acc ++ [b]) (by simp)

/-- A nonempty angle list always leaves at least one amp column. -/
theorem ampAngles_ne_nil (angles : List Int) (h : angles ≠ []) :
    ampAngles angles ≠ [] := by
  rcases angles with _ | ⟨a, t⟩
  · exact absurd rfl h
  · unfold ampAngles
    simp only [List.headD_cons, List.foldl_cons, if_pos rfl, ite_true,
      List.nil_append]
    exact foldl_reinit_ne_nil a t [a] (by simp)

/-- The `for row in range(amp.shape[0])` loop: one linregress call per sample
row; a raise inside the statistics call aborts the remaining rows. -/
noncomputable def regressRows (sf : ℝ → ℕ → ℝ) (sins : List ℝ) :
    List (List ℝ) → Except String (List LinregressResult)
  | [] => .ok []
  | row :: rest =>
    match linregress sf sins row with
    | .error e => .error e
    | .ok res =>
      match regressRows sf sins rest with
      | .error e => .error e
      | .ok tail => .ok (res :: tail)

/-- The numeric core of `attributes_computation`: gather the amplitude
matrix at (iline, xline), regress every sample row against `sins`, and
collect the five per-sample result arrays (gradient, intercept, rvalue,
pvalue, stderr). -/
noncomputable def attributesComputation (sf : ℝ → ℕ → ℝ) (vol : SegyVolume ℝ)
    (angles : List Int) (il xl : Int) :
    Except String (List ℝ × List ℝ × List ℝ × List ℝ × List ℝ) :=
  match regressRows sf (sinsOf angles) (ampRows vol angles il xl) with
  | .error e => .error e
  | .ok rs =>
    .ok (rs.map (·.slope), rs.map (·.intercept), rs.map (·.rvalue),
      rs.map (·.pvalue), rs.map (·.stderr))

/-! ### Arithmetic facts about the embedded linregress -/

/-- The seed is below the max fold. -/
theorem le_foldl_max (l : List ℝ) (init : ℝ) : init ≤ l.foldl max init := by
  induction l generalizing init with
  | nil => exact le_refl _
  | cons b t ih => exact le_trans (le_max_left init b) (ih (max init b))

/-- Every member is below the max fold. -/
theorem mem_le_foldl_max (l : List ℝ) (init : ℝ) {a : ℝ} (ha : a ∈ l) :
    a ≤ l.foldl max init := by
  induction l generalizing init with
  | nil => exact absurd ha (List.not_mem_nil a)
  | cons b t ih =>
    rcases List.mem_cons.mp ha with rfl | hat
    · exact le_trans (le_max_right init a) (le_foldl_max t (max init a))
    · exact ih (max init b) hat

/-- The min fold is below the seed. -/
theorem foldl_min_le (l : List ℝ) (init : ℝ) : l.foldl min init ≤ init := by
  induction l generalizing init with
  | nil => exact le_refl _
  | cons b t ih => exact le_trans (ih (min init b)) (min_le_left init b)

/-- The min fold is below every member. -/
theorem foldl_min_le_mem (l : List ℝ) (init : ℝ) {a : ℝ} (ha : a ∈ l) :
    l.foldl min init ≤ a := by
  induction l generalizing init with
  | nil => exact absurd ha (List.not_mem_nil a)
  | cons b t ih =>
    rcases List.mem_cons.mp ha with rfl | hat
    · exact le_trans (foldl_min_le t (min init a)) (min_le_right init a)
    · exact ih (min init b) hat

/-- When np.amax and np.amin agree, all members agree. -/
theorem all_eq_of_npamax_eq_npamin {l : List ℝ} (h : npamax l = npamin l)
    {a b : ℝ} (ha : a ∈ l) (hb : b ∈ l) : a = b := by
  have h1 : a ≤ npamax l := mem_le_foldl_max l (l.headD 0) ha
  have h2 : npamin l ≤ a := foldl_min_le_mem l (l.headD 0) ha
  have h3 : b ≤ npamax l := mem_le_foldl_max l (l.headD 0) hb
  have h4 : npamin l ≤ b := foldl_min_le_mem l (l.headD 0) hb
  linarith [h]

/-- Folding max over a constant list returns the constant. -/
theorem foldl_max_const (l : List ℝ) (c : ℝ) (hall : ∀ a ∈ l, a = c) :
    l.foldl max c = c := by
  induction l with
  | nil => rfl
  | cons b t ih =>
    have hb : b = c := hall b (List.mem_cons_self b t)
    rw [List.foldl_cons, hb, max_self]
    exact ih (fun a ha => hall a (List.mem_cons_of_mem b ha))

/-- Folding min over a constant list returns the constant. -/
theorem foldl_min_const (l : List ℝ) (c : ℝ) (hall : ∀ a ∈ l, a = c) :
    l.foldl min c = c := by
  induction l with
  | nil => rfl
  | cons b t ih =>
    have hb : b = c := hall b (List.mem_cons_self b t)
    rw [List.foldl_cons, hb, min_self]
    exact ih (fun a ha => hall a (List.mem_cons_of_mem b ha))

/-- A nonempty constant list has equal np.amax and np.amin. -/
theorem npamax_eq_npamin_of_all_eq {l : List ℝ} {c : ℝ} (hne : l ≠ [])
    (hall : ∀ a ∈ l, a = c) : npamax l = npamin l := by
  rcases l with _ | ⟨b, t⟩
  · exact absurd rfl hne
  · have hb : b = c := hall b (List.mem_cons_self b t)
    unfold npamax npamin
    have hh : (b :: t).headD 0 = c := by simp [hb]
    rw [hh]
    rw [show (b :: t).foldl max c = c from foldl_max_const _ c hall,
      show (b :: t).foldl min c = c from foldl_min_const _ c hall]

/-- Sum of an affine image. -/
theorem sum_map_affine (x : List ℝ) (m b : ℝ) :
    (x.map fun v => m * v + b).sum = m * x.sum + x.length * b := by
  induction x with
  | nil => simp
  | cons a t ih =>
    simp only [List.map_cons, List.sum_cons, ih, List.length_cons]
    push_cast
    ring

/-- Mean of an affine image. -/
theorem npmean_map_affine (x : List ℝ) (m b : ℝ) (hx : x ≠ []) :
    npmean (x.map fun v => m * v + b) = m * npmean x + b := by
  have hn : (x.length : ℝ) ≠ 0 := by
    have := List.length_pos.mpr hx
    positivity
  unfold npmean
  rw [List.length_map, sum_map_affine]
  field_simp
  ring

/-- Mean of a list scaled pointwise on an image. -/
theorem npmean_map_mul_left (l : List ℝ) (g : ℝ → ℝ) (m : ℝ) :
    npmean (l.map fun v => m * g v) = m * npmean (l.map g) := by
  unfold npmean
  rw [List.sum_map_mul_left l g m, List.length_map, List.length_map, mul_div_assoc]

/-- Covariance of x with an affine image of x. -/
theorem ssxym_affine (x : List ℝ) (m b : ℝ) (hx : x ≠ []) :
    ssxymOf x (x.map fun v => m * v + b) = m * ssxmOf x := by
  unfold ssxymOf ssxmOf
  rw [List.zipWith_map_right, List.zipWith_same, npmean_map_affine x m b hx]
  rw [show (x.map fun a => (a - npmean x) * (m * a + b - (m * npmean x + b))) =
      x.map fun a => m * ((a - npmean x) ^ 2) from
    List.map_congr_left (fun a _ => by ring)]
  exact npmean_map_mul_left x (fun a => (a - npmean x) ^ 2) m

/-- Variance of an affine image of x. -/
theorem ssym_affine (x : List ℝ) (m b : ℝ) (hx : x ≠ []) :
    ssymOf (x.map fun v => m * v + b) = m ^ 2 * ssxmOf x := by
  unfold ssymOf ssxmOf
  rw [npmean_map_affine x m b hx, List.map_map]
  rw [show ((fun v => (v - (m * npmean x + b)) ^ 2) ∘ fun v => m * v + b) =
      fun a => m ^ 2 * ((a - npmean x) ^ 2) from funext fun a => by
    simp only [Function.comp]
    ring]
  exact npmean_map_mul_left x (fun a => (a - npmean x) ^ 2) (m ^ 2)

/-- The population variance of x is positive once two entries differ. -/
theorem ssxm_pos (x : List ℝ) (k k' : ℕ) (hk : k < x.length) (hk' : k' < x.length)
    (hne : x.getD k 0 ≠ x.getD k' 0) : 0 < ssxmOf x := by
  have hxne : x ≠ [] := by
    intro h
    subst h
    simp at hk
  have hn : (0 : ℝ) < x.length := by
    have := List.length_pos.mpr hxne
    positivity
  have hmk : x.getD k 0 ∈ x := by
    rw [List.getD_eq_getElem _ _ hk]
    exact List.getElem_mem hk
  have hmk' : x.getD k' 0 ∈ x := by
    rw [List.getD_eq_getElem _ _ hk']
    exact List.getElem_mem hk'
  have hnonneg : ∀ a ∈ x.map fun v => (v - npmean x) ^ 2, 0 ≤ a := by
    intro a ha
    rcases List.mem_map.mp ha with ⟨v, _, rfl⟩
    exact sq_nonneg _
  have hwitness : ∃ a ∈ x.map fun v => (v - npmean x) ^ 2, 0 < a := by
    rcases ne_or_eq (x.getD k 0) (npmean x) with hka | hka
    · refine ⟨(x.getD k 0 - npmean x) ^ 2, List.mem_map_of_mem _ hmk, ?_⟩
      have h0 : x.getD k 0 - npmean x ≠ 0 := sub_ne_zero.mpr hka
      exact lt_of_le_of_ne (sq_nonneg _) (Ne.symm (pow_ne_zero 2 h0))
    · have hk'a : x.getD k' 0 ≠ npmean x := fun h => hne (by rw [hka, h])
      refine ⟨(x.getD k' 0 - npmean x) ^ 2, List.mem_map_of_mem _ hmk', ?_⟩
      have h0 : x.getD k' 0 - npmean x ≠ 0 := sub_ne_zero.mpr hk'a
      exact lt_of_le_of_ne (sq_nonneg _) (Ne.symm (pow_ne_zero 2 h0))
  rcases hwitness with ⟨a, hmem, hpos⟩
  unfold ssxmOf npmean
  rw [List.length_map]
  exact div_pos (list_sum_pos_of_mem hnonneg hmem hpos) hn

/-- linregress on data that is an exact affine function of x: when two x
values differ, the call succeeds with slope m, intercept b, and (for
nonzero m) a correlation coefficient of exactly plus or minus one. -/
theorem linregress_affine (sf : ℝ → ℕ → ℝ) (x : List ℝ) (m b : ℝ)
    (k k' : ℕ) (hk : k < x.length) (hk' : k' < x.length)
    (hne : x.getD k 0 ≠ x.getD k' 0) :
    ∃ res, linregress sf x (x.map fun v => m * v + b) = .ok res ∧
      res.slope = m ∧ res.intercept = b ∧
      (m ≠ 0 → res.rvalue = 1 ∨ res.rvalue = -1) := by
  have hxne : x ≠ [] := by
    intro h
    subst h
    simp at hk
  have hkk' : k ≠ k' := fun h => hne (by rw [h])
  have hlen2 : 2 ≤ x.length := by omega
  have hmk : x.getD k 0 ∈ x := by
    rw [List.getD_eq_getElem _ _ hk]
    exact List.getElem_mem hk
  have hmk' : x.getD k' 0 ∈ x := by
    rw [List.getD_eq_getElem _ _ hk']
    exact List.getElem_mem hk'
  have hssxm : 0 < ssxmOf x := ssxm_pos x k k' hk hk' hne
  have hempty : ¬(x.length = 0 ∨ (x.map fun v => m * v + b).length = 0) := by
    rw [List.length_map]
    omega
  have hguard : ¬(npamax x = npamin x ∧ 1 < x.length) := by
    rintro ⟨heq, -⟩
    exact hne (all_eq_of_npamax_eq_npamin heq hmk hmk')
  have hslope : slopeOf x (x.map fun v => m * v + b) = m := by
    unfold slopeOf
    rw [ssxym_affine x m b hxne]
    field_simp
  have hicept : interceptOf x (x.map fun v => m * v + b) = b := by
    unfold interceptOf
    rw [hslope, npmean_map_affine x m b hxne]
    ring
  have hrv : m ≠ 0 →
      rvalueOf x (x.map fun v => m * v + b) = 1 ∨
      rvalueOf x (x.map fun v => m * v + b) = -1 := by
    intro hm
    have habs : 0 < |m| := abs_pos.mpr hm
    unfold rvalueOf
    rw [ssym_affine x m b hxne, ssxym_affine x m b hxne]
    rw [show ssxmOf x * (m ^ 2 * ssxmOf x) = (|m| * ssxmOf x) ^ 2 by
      rw [mul_pow, sq_abs]; ring]
    rw [Real.sqrt_sq (by positivity)]
    have hden : |m| * ssxmOf x ≠ 0 := by positivity
    rw [if_neg hden]
    rw [show m * ssxmOf x / (|m| * ssxmOf x) = m / |m| by
      rw [mul_div_mul_right _ _ (ne_of_gt hssxm)]]
    rcases lt_or_gt_of_ne hm with hm0 | hm0
    · right
      rw [show m / |m| = -1 by
        rw [abs_of_neg hm0]
        field_simp]
      rw [if_neg (by norm_num), if_neg (by norm_num)]
    · left
      rw [show m / |m| = 1 by
        rw [abs_of_pos hm0]
        exact div_self (ne_of_gt hm0)]
      rw [if_neg (by norm_num), if_neg (by norm_num)]
  have hmismatch : ¬(x.length ≠ (x.map fun v => m * v + b).length) := by
    rw [List.length_map]
    exact fun h => h rfl
  unfold linregress
  rw [if_neg hempty, if_neg hguard, if_neg hmismatch]
  by_cases h2 : x.length = 2
  · rw [if_pos h2]
    exact ⟨_, rfl, hslope, hicept, hrv⟩
  · rw [if_neg h2]
    exact ⟨_, rfl, hslope, hicept, hrv⟩

/-- The row loop succeeds once every row regression succeeds, collecting the
per-row results in order. -/
theorem regressRows_spec (sf : ℝ → ℕ → ℝ) (sins : List ℝ) (rows : List (List ℝ))
    (P : LinregressResult → Prop)
    (h : ∀ row ∈ rows, ∃ res, linregress sf sins row = .ok res ∧ P res) :
    ∃ rs, regressRows sf sins rows = .ok rs ∧ rs.length = rows.length ∧
      ∀ res ∈ rs, P res := by
  induction rows with
  | nil => exact ⟨[], rfl, rfl, by simp⟩
  | cons row rest ih =>
    rcases h row (List.mem_cons_self _ _) with ⟨res, hres, hP⟩
    rcases ih (fun r hr => h r (List.mem_cons_of_mem _ hr)) with ⟨rs, hrs, hlen, hall⟩
    refine ⟨res :: rs, ?_, by simp [hlen], ?_⟩
    · simp only [regressRows, hres, hrs]
    · intro r hr
      rcases List.mem_cons.mp hr with rfl | h'
      · exact hP
      · exact hall r h'

/-- Length of the amplitude matrix: one row per sample. -/
theorem ampRows_length (vol : SegyVolume ℝ) (angles : List Int) (il xl : Int) :
    (ampRows vol angles il xl).length = vol.samples.length := by
  unfold ampRows
  rw [List.length_map, List.length_range]

/-- Numeric core of C2, shared with the routing analysis of the older
pipeline: amplitudes that are an exact affine function of sin squared of the
angles are recovered exactly by the per-location computation. -/
theorem avo_regression_core (sf : ℝ → ℕ → ℝ) (vol : SegyVolume ℝ) (angles : List Int)
    (il xl : Int) (m b : ℝ) (hm : m ≠ 0)
    (hnorep : ∀ v ∈ angles.tail, v ≠ angles.headD 0)
    (hlin : ∀ k, k < angles.length → ∀ s, s < vol.samples.length →
      (gatherTrace vol il xl (angles.getD k 0)).getD s 0 =
        m * (sinsOf angles).getD k 0 + b)
    (k k' : ℕ) (hk : k < angles.length) (hk' : k' < angles.length)
    (hsin : (sinsOf angles).getD k 0 ≠ (sinsOf angles).getD k' 0) :
    ∃ g i r p e, attributesComputation sf vol angles il xl = .ok (g, i, r, p, e) ∧
      g.length = vol.samples.length ∧ i.length = vol.samples.length ∧
      ∀ s, s < vol.samples.length →
        g.getD s 0 = m ∧ i.getD s 0 = b ∧
        (r.getD s 0 = 1 ∨ r.getD s 0 = -1) := by
  have hslen : (sinsOf angles).length = angles.length := List.length_map _ _
  have hrow : ∀ row ∈ ampRows vol angles il xl,
      row = (sinsOf angles).map fun v => m * v + b := by
    intro row hmem
    unfold ampRows at hmem
    simp only [ampAngles_eq_self angles hnorep] at hmem
    rcases List.mem_map.mp hmem with ⟨s, hs, rfl⟩
    have hs' : s < vol.samples.length := List.mem_range.mp hs
    apply List.ext_getElem
    · rw [List.length_map, List.length_map, hslen]
    · intro n h1 h2
      have hn : n < angles.length := by
        rw [List.length_map] at h1
        exact h1
      have hn2 : n < (sinsOf angles).length := by
        rw [hslen]
        exact hn
      have hlin' := hlin n hn s hs'
      rw [List.getD_eq_getElem angles 0 hn,
        List.getD_eq_getElem (sinsOf angles) 0 hn2] at hlin'
      simp only [List.getElem_map]
      exact hlin'
  have hreg : ∀ row ∈ ampRows vol angles il xl,
      ∃ res, linregress sf (sinsOf angles) row = .ok res ∧
        (res.slope = m ∧ res.intercept = b ∧
          (res.rvalue = 1 ∨ res.rvalue = -1)) := by
    intro row hmem
    rw [hrow row hmem]
    rcases linregress_affine sf (sinsOf angles) m b k k'
      (by rw [hslen]; exact hk) (by rw [hslen]; exact hk') hsin with
      ⟨res, heq, h1, h2, h3⟩
    exact ⟨res, heq, h1, h2, h3 hm⟩
  rcases regressRows_spec sf (sinsOf angles) (ampRows vol angles il xl) _ hreg with
    ⟨rs, hrs, hlen, hall⟩
  have hrslen : rs.length = vol.samples.length := by
    rw [hlen, ampRows_length]
  refine ⟨rs.map (·.slope), rs.map (·.intercept), rs.map (·.rvalue),
    rs.map (·.pvalue), rs.map (·.stderr), ?_, ?_, ?_, ?_⟩
  · unfold attributesComputation
    rw [hrs]
  · rw [List.length_map, hrslen]
  · rw [List.length_map, hrslen]
  · intro s hs
    have hs' : s < rs.length := by rw [hrslen]; exact hs
    have hmem : rs[s] ∈ rs := List.getElem_mem hs'
    rcases hall rs[s] hmem with ⟨h1, h2, h3⟩
    refine ⟨?_, ?_, ?_⟩
    · rw [List.getD_eq_getElem _ _ (by rw [List.length_map]; exact hs'),
        List.getElem_map]
      exact h1
    · rw [List.getD_eq_getElem _ _ (by rw [List.length_map]; exact hs'),
        List.getElem_map]
      exact h2
    · rw [List.getD_eq_getElem _ _ (by rw [List.length_map]; exact hs'),
        List.getElem_map]
      exact h3

/-- C2.  Regression exactness: if the K amplitude vectors at a location are
an exact affine function `amp = m * sin(radians(angle))^2 + b` with nonzero
m, with two angles whose sin-squared values differ, and with no later angle
repeating the first one (a repeat re-initializes the amp matrix, AVO.py 324,
and the mismatched x/y lengths then crash inside np.cov), the per-location
computation succeeds and every sample recovers gradient m, intercept b and a
correlation coefficient of exactly plus or minus one. -/
theorem avo_regression_exact (sf : ℝ → ℕ → ℝ) (vol : SegyVolume ℝ) (angles : List Int)
    (il xl : Int) (m b : ℝ) (hm : m ≠ 0)
    (hnorep : ∀ v ∈ angles.tail, v ≠ angles.headD 0)
    (hlin : ∀ k, k < angles.length → ∀ s, s < vol.samples.length →
      (gatherTrace vol il xl (angles.getD k 0)).getD s 0 =
        m * (sinsOf angles).getD k 0 + b)
    (k k' : ℕ) (hk : k < angles.length) (hk' : k' < angles.length)
    (hsin : (sinsOf angles).getD k 0 ≠ (sinsOf angles).getD k' 0) :
    ∃ g i r p e, attributesComputation sf vol angles il xl = .ok (g, i, r, p, e) ∧
      g.length = vol.samples.length ∧ i.length = vol.samples.length ∧
      ∀ s, s < vol.samples.length →
        g.getD s 0 = m ∧ i.getD s 0 = b ∧
        (r.getD s 0 = 1 ∨ r.getD s 0 = -1) :=
  avo_regression_core sf vol angles il xl m b hm hnorep hlin k k' hk hk' hsin

/-- Core of C5: when every sin-squared value coincides, the very first
sample's linregress call raises scipy's identical-x ValueError and the whole
location computation aborts with it. -/
theorem attributesComputation_const_sins (sf : ℝ → ℕ → ℝ) (vol : SegyVolume ℝ)
    (angles : List Int) (il xl : Int) (c : ℝ)
    (hall : ∀ v ∈ sinsOf angles, v = c) (hlen : 2 ≤ angles.length)
    (hS : vol.samples.length ≠ 0) :
    attributesComputation sf vol angles il xl = .error identicalXMsg := by
  have hslen : (sinsOf angles).length = angles.length := List.length_map _ _
  have hsne : sinsOf angles ≠ [] := by
    intro h
    rw [h] at hslen
    simp at hslen
    omega
  have hmax : npamax (sinsOf angles) = npamin (sinsOf angles) :=
    npamax_eq_npamin_of_all_eq hsne hall
  have h1lt : 1 < (sinsOf angles).length := by omega
  obtain ⟨S', hS'⟩ := Nat.exists_eq_succ_of_ne_zero hS
  have hne : angles ≠ [] := by
    intro hnil
    rw [hnil] at hlen
    simp at hlen
  have hamp : ∃ rest, ampRows vol angles il xl =
      ((ampAngles angles).map fun angle => (gatherTrace vol il xl angle).getD 0 0) ::
        rest := by
    unfold ampRows
    rw [hS', List.range_succ_eq_map, List.map_cons]
    exact ⟨_, rfl⟩
  rcases hamp with ⟨rest, heq⟩
  have hlr : linregress sf (sinsOf angles)
      ((ampAngles angles).map fun angle => (gatherTrace vol il xl angle).getD 0 0) =
      .error identicalXMsg := by
    unfold linregress
    rw [if_neg, if_pos ⟨hmax, h1lt⟩]
    rw [List.length_map, hslen]
    push_neg
    refine ⟨by omega, ?_⟩
    intro h0
    exact ampAngles_ne_nil angles hne (List.length_eq_zero.mp h0)
  unfold attributesComputation
  rw [heq]
  simp only [regressRows, hlr]

/-! ### Concrete angle data for the regression claims -/

/-- A degenerate stand-in for scipy's Student t survival function. -/
def sfZero : ℝ → ℕ → ℝ := fun _ _ => 0

/-- sin squared of 0 and 30 degrees. -/
theorem sins_zero_thirty : sinsOf [0, 30] = [0, 1/4] := by
  have h0 : radians 0 = 0 := by
    unfold radians
    push_cast
    ring
  have h30 : radians 30 = Real.pi / 6 := by
    unfold radians
    push_cast
    ring
  unfold sinsOf sinSq
  rw [List.map_cons, List.map_cons, List.map_nil, h0, h30, Real.sin_zero,
    Real.sin_pi_div_six]
  norm_num

/-- sin squared of 30 and 150 degrees coincide. -/
theorem sins_thirty_onefifty : sinsOf [30, 150] = [1/4, 1/4] := by
  have h30 : radians 30 = Real.pi / 6 := by
    unfold radians
    push_cast
    ring
  have h150 : radians 150 = Real.pi - Real.pi / 6 := by
    unfold radians
    push_cast
    ring
  unfold sinsOf sinSq
  rw [List.map_cons, List.map_cons, List.map_nil, h30, h150, Real.sin_pi_sub,
    Real.sin_pi_div_six]
  norm_num

/-- A one-location merged volume at angles [0, 30] whose amplitudes follow
`amp = 2 * sin(radians(angle))^2 + 3` exactly. -/
noncomputable def volAff : SegyVolume ℝ :=
  ⟨[1], [1], [0], [0, 30], [⟨headerZero, [3]⟩, ⟨headerZero, [7/2]⟩]⟩

/-- A one-location merged volume at angles [30, 150]; the amplitudes follow
`amp = 1 * sin(radians(angle))^2 + 0` exactly (both sin-squared values are
one quarter). -/
noncomputable def volDegen : SegyVolume ℝ :=
  ⟨[1], [1], [0], [30, 150], [⟨headerZero, [1/4]⟩, ⟨headerZero, [1/4]⟩]⟩

/-- A one-location merged volume whose three offsets all carry angle 10. -/
noncomputable def volIdent : SegyVolume ℝ :=
  ⟨[1], [1], [0], [10, 10, 10],
   [⟨headerZero, [1/2]⟩, ⟨headerZero, [1/2]⟩, ⟨headerZero, [1/2]⟩]⟩

/-- A one-location merged volume whose angle list [0, 0, 30] repeats its
first angle: the amp loop re-initializes on the second 0. -/
noncomputable def volRep : SegyVolume ℝ :=
  ⟨[1], [1], [0], [0, 0, 30],
   [⟨headerZero, [0]⟩, ⟨headerZero, [0]⟩, ⟨headerZero, [1/4]⟩]⟩

/-- sin squared of the repeated-first-angle list [0, 0, 30]. -/
theorem sins_rep : sinsOf [0, 0, 30] = [0, 0, 1/4] := by
  have h0 : radians 0 = 0 := by
    unfold radians
    push_cast
    ring
  have h30 : radians 30 = Real.pi / 6 := by
    unfold radians
    push_cast
    ring
  unfold sinsOf sinSq
  rw [List.map_cons, List.map_cons, List.map_cons, List.map_nil, h0, h30,
    Real.sin_zero, Real.sin_pi_div_six]
  norm_num

/-- Demonstration that the re-initialization is faithfully modelled: with the
angle list [0, 0, 30] only two amp columns survive, so the first per-sample
linregress call receives a 3-element x and a 2-element y and raises the
np.cov length-mismatch ValueError, aborting the location. -/
theorem avo_repeated_first_angle_crash :
    attributesComputation sfZero volRep [0, 0, 30] 1 1 = .error covMismatchMsg := by
  have hamp : ampRows volRep [0, 0, 30] 1 1 = [[0, 1/4]] := rfl
  have hmax : npamax [0, 0, 1/4] = 1/4 := by
    unfold npamax
    simp only [List.headD_cons, List.foldl_cons, List.foldl_nil, max_self]
    rw [max_eq_right]
    norm_num
  have hmin : npamin [0, 0, 1/4] = 0 := by
    unfold npamin
    simp only [List.headD_cons, List.foldl_cons, List.foldl_nil, min_self]
    rw [min_eq_left]
    norm_num
  have h1 : ¬(([0, 0, 1/4] : List ℝ).length = 0 ∨ ([0, 1/4] : List ℝ).length = 0) := by
    simp
  have h2 : ¬(npamax [0, 0, 1/4] = npamin [0, 0, 1/4] ∧
      1 < ([0, 0, 1/4] : List ℝ).length) := by
    rw [hmax, hmin]
    norm_num
  have h3 : ([0, 0, 1/4] : List ℝ).length ≠ ([0, 1/4] : List ℝ).length := by
    simp
  have hlr : linregress sfZero [0, 0, 1/4] [0, 1/4] = .error covMismatchMsg := by
    unfold linregress
    rw [if_neg h1, if_neg h2, if_pos h3]
  unfold attributesComputation
  rw [sins_rep, hamp]
  simp only [regressRows, hlr]

/-- The amplitudes of `volAff` are exactly affine in sin squared with slope 2
and intercept 3. -/
theorem volAff_linear : ∀ k, k < ([0, 30] : List Int).length →
    ∀ s, s < volAff.samples.length →
    (gatherTrace volAff 1 1 (([0, 30] : List Int).getD k 0)).getD s 0 =
      2 * (sinsOf [0, 30]).getD k 0 + 3 := by
  intro k hk s hs
  have hk2 : k < 2 := by simpa using hk
  have hs1 : s < 1 := by simpa [volAff] using hs
  interval_cases k <;> interval_cases s
  · rw [sins_zero_thirty,
      show gatherTrace volAff 1 1 (([0, 30] : List Int).getD 0 0) = [(3:ℝ)] from rfl]
    norm_num
  · rw [sins_zero_thirty,
      show gatherTrace volAff 1 1 (([0, 30] : List Int).getD 1 0) = [(7/2:ℝ)] from rfl]
    norm_num

/-- Witness for `avo_regression_exact` on `volAff`. -/
theorem avo_regression_exact_witness :
    ((2:ℝ) ≠ 0 ∧ (∀ v ∈ ([0, 30] : List Int).tail, v ≠ ([0, 30] : List Int).headD 0) ∧
      (sinsOf [0, 30]).getD 0 0 ≠ (sinsOf [0, 30]).getD 1 0) ∧
    (∃ g i r p e, attributesComputation sfZero volAff [0, 30] 1 1 = .ok (g, i, r, p, e) ∧
      g.length = volAff.samples.length ∧ i.length = volAff.samples.length ∧
      ∀ s, s < volAff.samples.length →
        g.getD s 0 = 2 ∧ i.getD s 0 = 3 ∧
        (r.getD s 0 = 1 ∨ r.getD s 0 = -1)) := by
  have hsin : (sinsOf [0, 30]).getD 0 0 ≠ (sinsOf [0, 30]).getD 1 0 := by
    rw [sins_zero_thirty]
    norm_num
  exact ⟨⟨by norm_num, by decide, hsin⟩,
    avo_regression_exact sfZero volAff [0, 30] 1 1 2 3 (by norm_num) (by decide)
      volAff_linear 0 1 (by norm_num) (by norm_num) hsin⟩

/-- Counterexample to C2 as stated: the two angles 30 and 150 are distinct
and the amplitudes of `volDegen` are exactly affine in sin squared of the
angle, yet the computation raises inside linregress (the two sin-squared
values coincide) instead of returning the regression outputs. -/
theorem regression_collapsed_angles_counterexample :
    ((30 : Int) ≠ 150) ∧
    (gatherTrace volDegen 1 1 30).getD 0 0 = 1 * (sinsOf [30, 150]).getD 0 0 + 0 ∧
    (gatherTrace volDegen 1 1 150).getD 0 0 = 1 * (sinsOf [30, 150]).getD 1 0 + 0 ∧
    attributesComputation sfZero volDegen [30, 150] 1 1 = .error identicalXMsg := by
  refine ⟨by decide, ?_, ?_, ?_⟩
  · rw [sins_thirty_onefifty,
      show gatherTrace volDegen 1 1 30 = [(1/4 : ℝ)] from rfl]
    norm_num
  · rw [sins_thirty_onefifty,
      show gatherTrace volDegen 1 1 150 = [(1/4 : ℝ)] from rfl]
    norm_num
  · apply attributesComputation_const_sins sfZero volDegen [30, 150] 1 1 (1/4)
    · intro v hv
      rw [sins_thirty_onefifty] at hv
      rcases List.mem_cons.mp hv with rfl | hv'
      · rfl
      · rcases List.mem_cons.mp hv' with rfl | hv''
        · rfl
        · exact absurd hv'' (List.not_mem_nil v)
    · norm_num
    · decide

/-- C5 (amended).  When every supplied angle is identical, the per-location
computation aborts at its first sample with the ValueError scipy raises on a
zero-variance x; no result arrays (zero-filled, NaN or otherwise) are
produced. -/
theorem avo_identical_angles_error (sf : ℝ → ℕ → ℝ) (vol : SegyVolume ℝ)
    (angles : List Int) (il xl : Int) (a0 : Int)
    (hall : ∀ a ∈ angles, a = a0) (hlen : 2 ≤ angles.length)
    (hS : vol.samples.length ≠ 0) :
    attributesComputation sf vol angles il xl = .error identicalXMsg := by
  apply attributesComputation_const_sins sf vol angles il xl (sinSq a0) ?_ hlen hS
  intro v hv
  rcases List.mem_map.mp hv with ⟨a, ha, rfl⟩
  rw [hall a ha]

/-- Witness for `avo_identical_angles_error` with angles [20, 20]. -/
theorem avo_identical_angles_error_witness :
    ((∀ a ∈ ([20, 20] : List Int), a = 20) ∧ 2 ≤ ([20, 20] : List Int).length ∧
      volIdent.samples.length ≠ 0) ∧
    attributesComputation sfZero volIdent [20, 20] 1 1 = .error identicalXMsg :=
  ⟨⟨by decide, by norm_num, by decide⟩,
   avo_identical_angles_error sfZero volIdent [20, 20] 1 1 20 (by decide)
     (by norm_num) (by decide)⟩

/-- Counterexample to C5 as stated: with all angles equal to 10 the code
fails with scipy's ValueError, not with a DegenerateRegression error (no such
error exists anywhere in the code), and it aborts at the first sample rather
than raising once per sample. -/
theorem avo_degenerate_counterexample :
    attributesComputation sfZero volIdent [10, 10, 10] 1 1 = .error identicalXMsg ∧
    identicalXMsg ≠ "DegenerateRegression" := by
  constructor
  · have h10 : ∀ a ∈ ([10, 10, 10] : List Int), a = 10 := by decide
    exact attributesComputation_const_sins sfZero volIdent [10, 10, 10] 1 1 (sinSq 10)
      (by
        intro v hv
        rcases List.mem_map.mp hv with ⟨a, ha, rfl⟩
        rw [h10 a ha])
      (by norm_num) (by decide)
  · decide

/-! ### AVOModule.index_generator (AVO.py lines 356-414) -/

/-- The argument list one generator step yields (AVO.py lines 411-413), in
yield order: the six paths, the angle list, the line numbers and the running
trace index. -/
structure IndexArgs where
  merge_path : String
  gradient_path : String
  intercept_path : String
  rvalue_path : String
  pvalue_path : String
  stderr_path : String
  angle_list : List Int
  iline : Int
  xline : Int
  trace_index : ℕ
deriving DecidableEq, Repr

/-- Default work item. -/
def defaultIndexArgs : IndexArgs := ⟨"", "", "", "", "", "", [], 0, 0, 0⟩

/-- Embedding of `AVOModule.index_generator`: one work item per (inline, crossline) pair,
inline-major, with `trace_index` starting at 0 and incremented once per
yield, hence equal to `i * xlines.length + j` at counters (i, j). -/
def indexGenerator (mp gp ip rp pp sp : String) (angles : List Int)
    (inlines xlines : List Int) : List IndexArgs :=
  (List.range inlines.length).flatMap fun i =>
    (List.range xlines.length).map fun j =>
      ⟨mp, gp, ip, rp, pp, sp, angles, inlines.getD i 0, xlines.getD j 0,
        i * xlines.length + j⟩

/-- Length of a double nested block list over counter ranges. -/
theorem flatMap2_length {β : Type} (I J : ℕ) (g : ℕ → ℕ → β) :
    ((List.range I).flatMap fun a => (List.range J).map fun b => g a b).length =
      I * J := by
  rw [length_flatMap_const _ _ J (fun a _ => by simp), List.length_range]

/-- Element access in a double nested block list over counter ranges. -/
theorem flatMap2_getD {β : Type} (I J : ℕ) (g : ℕ → ℕ → β) (i j : ℕ)
    (hi : i < I) (hj : j < J) (d : β) :
    ((List.range I).flatMap fun a => (List.range J).map fun b => g a b).getD
      (i * J + j) d = g i j := by
  rw [flatMap_getD_const (List.range I) _ J (fun a _ => by simp) i j
    (by simpa using hi) hj d 0]
  rw [List.getD_eq_getElem (List.range I) 0 (by simpa using hi), List.getElem_range]
  rw [List.getD_eq_getElem _ _ (by simpa using hj), List.getElem_map, List.getElem_range]

/-- Projecting the running index out of a double nested block list gives the
consecutive range. -/
theorem flatMap2_map_index {β : Type} (I J : ℕ) (g : ℕ → ℕ → β) (tr : β → ℕ)
    (htr : ∀ a b, tr (g a b) = a * J + b) (d : β) :
    ((List.range I).flatMap fun a => (List.range J).map fun b => g a b).map tr =
      List.range (I * J) := by
  apply List.ext_getElem
  · rw [List.length_map, flatMap2_length, List.length_range]
  · intro n h1 h2
    rw [List.getElem_map, List.getElem_range]
    have hn : n < I * J := by
      rw [List.length_map, flatMap2_length] at h1
      exact h1
    have hJ : 0 < J := by
      rcases Nat.eq_zero_or_pos J with h | h
      · rw [h, Nat.mul_zero] at hn
        omega
      · exact h
    have hq : n / J < I := (Nat.div_lt_iff_lt_mul hJ).mpr hn
    have hr : n % J < J := Nat.mod_lt _ hJ
    have hlen : n < ((List.range I).flatMap fun a =>
        (List.range J).map fun b => g a b).length := by
      rw [flatMap2_length]
      exact hn
    have hsplit : n = n / J * J + n % J := by
      conv_lhs => rw [← Nat.div_add_mod n J]
      ring
    rw [← List.getD_eq_getElem _ d hlen]
    conv_lhs => rw [hsplit]
    rw [flatMap2_getD I J g (n / J) (n % J) hq hr d, htr]
    exact hsplit.symm

/-- C7.  The dispatcher work-item list has one item per (inline, crossline)
pair of the declared grid, enumerated inline-major; the trace indices it
assigns are exactly 0..(count-1) in order, so each grid location maps 1:1 to
one task and one output trace slot, none skipped or duplicated. -/
theorem index_gen_partition (mp gp ip rp pp sp : String) (angles : List Int)
    (inlines xlines : List Int) (i j : ℕ)
    (hi : i < inlines.length) (hj : j < xlines.length) :
    (indexGenerator mp gp ip rp pp sp angles inlines xlines).length =
      inlines.length * xlines.length ∧
    (indexGenerator mp gp ip rp pp sp angles inlines xlines).map (·.trace_index) =
      List.range (inlines.length * xlines.length) ∧
    ((indexGenerator mp gp ip rp pp sp angles inlines xlines).getD
      (i * xlines.length + j) defaultIndexArgs).iline = inlines.getD i 0 ∧
    ((indexGenerator mp gp ip rp pp sp angles inlines xlines).getD
      (i * xlines.length + j) defaultIndexArgs).xline = xlines.getD j 0 ∧
    ((indexGenerator mp gp ip rp pp sp angles inlines xlines).getD
      (i * xlines.length + j) defaultIndexArgs).trace_index =
      i * xlines.length + j := by
  unfold indexGenerator
  refine ⟨flatMap2_length _ _ _, ?_, ?_, ?_, ?_⟩
  · exact flatMap2_map_index _ _ _ _ (fun a b => rfl) defaultIndexArgs
  · rw [flatMap2_getD _ _ _ i j hi hj]
  · rw [flatMap2_getD _ _ _ i j hi hj]
  · rw [flatMap2_getD _ _ _ i j hi hj]

/-- Witness for `index_gen_partition` on a two-by-three grid at
(i, j) = (1, 2). -/
theorem index_gen_partition_witness :
    ((1 : ℕ) < ([10, 20] : List Int).length ∧ (2 : ℕ) < ([7, 8, 9] : List Int).length) ∧
    (indexGenerator "m" "g" "i" "r" "p" "s" [5, 10] [10, 20] [7, 8, 9]).length = 6 ∧
    (indexGenerator "m" "g" "i" "r" "p" "s" [5, 10] [10, 20] [7, 8, 9]).map
      (·.trace_index) = List.range 6 ∧
    ((indexGenerator "m" "g" "i" "r" "p" "s" [5, 10] [10, 20] [7, 8, 9]).getD 5
      defaultIndexArgs).iline = 20 ∧
    ((indexGenerator "m" "g" "i" "r" "p" "s" [5, 10] [10, 20] [7, 8, 9]).getD 5
      defaultIndexArgs).xline = 9 ∧
    ((indexGenerator "m" "g" "i" "r" "p" "s" [5, 10] [10, 20] [7, 8, 9]).getD 5
      defaultIndexArgs).trace_index = 5 :=
  ⟨⟨by decide, by decide⟩,
   index_gen_partition "m" "g" "i" "r" "p" "s" [5, 10] [10, 20] [7, 8, 9] 1 2
     (by decide) (by decide)⟩

/-! ### input_generator and AVO_attributes_computation_2
(source/avo.py lines 28-186) -/

/-- The ten-element argument list yielded by `input_generator`
(source/avo.py lines 79-80), by position: 0 the gather path, 1 the angle
list, 2-3 the line numbers, 4 the running trace index, and 5-9 the OUTPUT
PATHS IN YIELD ORDER, namely gradient, intercept, rvalue, pvalue, stderr. -/
structure GenArgs where
  a0 : String
  a1 : List Int
  a2 : Int
  a3 : Int
  a4 : ℕ
  a5 : String
  a6 : String
  a7 : String
  a8 : String
  a9 : String
deriving DecidableEq, Repr

/-- Default argument list. -/
def defaultGenArgs : GenArgs := ⟨"", [], 0, 0, 0, "", "", "", "", ""⟩

/-- Embedding of `input_generator` (source/avo.py lines 28-81): iterates the gather
volume's lines inline-major with a running index, yielding
`[gather_file, list_of_angles, iline, xline, index, gradient_path,
intercept_path, rvalue_path, pvalue_path, stderr_path]`.  The filesystem is
modelled by `fs`, mapping a path to the volume segyio opens there. -/
def inputGenerator (fs : String → SegyVolume ℝ) (gather_file : String)
    (angles : List Int) (gp ip rp pp sp : String) : List GenArgs :=
  (List.range (fs gather_file).ilines.length).flatMap fun i =>
    (List.range (fs gather_file).xlines.length).map fun j =>
      ⟨gather_file, angles, (fs gather_file).ilines.getD i 0,
        (fs gather_file).xlines.getD j 0,
        i * (fs gather_file).xlines.length + j, gp, ip, rp, pp, sp⟩

/-- Embedding of `AVO_attributes_computation_2` (source/avo.py lines 83-186), reduced to
its observable effect: the per-trace writes it performs, as (path, trace
index, stored array) triples in program order.  The unpacking follows lines
124-133 of the source LITERALLY: position 5 is bound to the name
`intercept_file` and position 6 to `gradient_file`, although the generator
yielded the gradient path at position 5 and the intercept path at
position 6.  The computed arrays are then stored through those names
(lines 170-183). -/
noncomputable def avoComputation2 (sf : ℝ → ℕ → ℝ) (fs : String → SegyVolume ℝ)
    (g : GenArgs) : Except String (List (String × ℕ × List ℝ)) :=
  match attributesComputation sf (fs g.a0) g.a1 g.a2 g.a3 with
  | .error e => .error e
  | .ok (gradient, intercept, rvalue, pvalue, stderr) =>
    .ok [(g.a6, g.a4, gradient), (g.a5, g.a4, intercept), (g.a7, g.a4, rvalue),
      (g.a8, g.a4, pvalue), (g.a9, g.a4, stderr)]

/-- The filesystem containing only the affine test volume. -/
noncomputable def fsAff : String → SegyVolume ℝ := fun _ => volAff

/-- The single work item `input_generator` yields over `volAff`. -/
noncomputable def genAff : GenArgs :=
  (inputGenerator fsAff "merge.sgy" [0, 30] "gradient.sgy" "intercept.sgy"
    "rvalue.sgy" "pvalue.sgy" "stderr.sgy").getD 0 defaultGenArgs

/-- A real list of length one is pinned down by its first entry. -/
theorem list_singleton_of_length_one (l : List ℝ) (c : ℝ) (h1 : l.length = 1)
    (h2 : l.getD 0 0 = c) : l = [c] := by
  rcases l with _ | ⟨a, t⟩
  · simp at h1
  · rcases t with _ | ⟨b, u⟩
    · rw [show a = c from h2]
    · simp at h1

/-- C3 (the bug, evaluated).  Over amplitudes with true gradient 2 and true
intercept 3, the older pipeline writes the gradient array [2] to the
INTERCEPT path and the intercept array [3] to the GRADIENT path: the
generated work item carries the gradient path at position 5, but the
computation unpacks position 5 as its intercept file. -/
theorem avo2_routing_swap :
    ∃ rv pv se,
      avoComputation2 sfZero fsAff genAff =
        .ok [("intercept.sgy", 0, [2]), ("gradient.sgy", 0, [3]),
          ("rvalue.sgy", 0, rv), ("pvalue.sgy", 0, pv), ("stderr.sgy", 0, se)] ∧
      ([2] : List ℝ) ≠ [3] := by
  have hsin : (sinsOf [0, 30]).getD 0 0 ≠ (sinsOf [0, 30]).getD 1 0 := by
    rw [sins_zero_thirty]
    norm_num
  rcases avo_regression_core sfZero volAff [0, 30] 1 1 2 3 (by norm_num) (by decide)
    volAff_linear 0 1 (by norm_num) (by norm_num) hsin with
    ⟨g, i, r, p, e, heq, hlen, hleni, hvals⟩
  have hg1 : g.length = 1 := by simpa [volAff] using hlen
  have hi1 : i.length = 1 := by simpa [volAff] using hleni
  rcases hvals 0 (by decide) with ⟨hgv, hiv, -⟩
  have hgeq : g = [2] := list_singleton_of_length_one g 2 hg1 hgv
  have hieq : i = [3] := list_singleton_of_length_one i 3 hi1 hiv
  refine ⟨r, p, e, ?_, by norm_num⟩
  have hstep : avoComputation2 sfZero fsAff genAff =
      match attributesComputation sfZero volAff [0, 30] 1 1 with
      | .error msg => .error msg
      | .ok (gradient, intercept, rvalue, pvalue, stderr) =>
        .ok [("intercept.sgy", 0, gradient), ("gradient.sgy", 0, intercept),
          ("rvalue.sgy", 0, rvalue), ("pvalue.sgy", 0, pvalue),
          ("stderr.sgy", 0, stderr)] := rfl
  rw [hstep, heq, hgeq, hieq]

/-! ### AVOModule.files_from_np (AVO.py lines 129-229) -/

/-- Python `range(a, b)` over integers. -/
def pyRange (a b : Int) : List Int :=
  (List.range (b - a).toNat).map fun n => a + n

/-- The zero-filled attribute file `segyio.tools.from_array3D` creates from
`np.zeros((len(inlines), len(crosslines), samples_per_trace))` (AVO.py lines
191-195): one all-zero trace per (inline, crossline) pair.  (from_array3D
also stamps default line-numbering headers; the five words the claims are
about are all overwritten by the header loop below, so the prior header
content is modelled as zero.) -/
def zerosFile (α : Type) [Zero α] (I J S : ℕ) : List (Trace α) :=
  List.replicate (I * J) ⟨headerZero, List.replicate S 0⟩

/-- Header of the merged volume's first-offset trace number `tc`:
`staked_trace_index = np.arange(0, segy_file.tracecount, len(offsets))`
selects flat position `tc * len(offsets)` (AVO.py lines 198-202). -/
def stakedHeader {α : Type} (merged : SegyVolume α) (tc : ℕ) : TraceHeader :=
  (merged.traces.getD (tc * merged.offsets.length) emptyTrace).header

/-- One header assignment of the loop (AVO.py lines 209-213): segyio writes
the five given header words (scalco, cdpx, cdpy, iline, xline), keeping the
rest of the trace. -/
def assignHeader {α : Type} (merged : SegyVolume α) (t : Trace α) (tc : ℕ)
    (il xl : Int) : Trace α :=
  { t with header := { t.header with
      scalco := (stakedHeader merged tc).scalco,
      cdpx := (stakedHeader merged tc).cdpx,
      cdpy := (stakedHeader merged tc).cdpy,
      iline := il,
      xline := xl } }

/-- The header loop of `files_from_np` (AVO.py lines 205-215): one
assignment per (iline, xline) pair with a running `trace_counter`; indexing
past the file's trace count raises IndexError (both in segyio's header
accessor and in the numpy coordinate arrays). -/
def setHeaders {α : Type} (merged : SegyVolume α) :
    List (Trace α) → List (Int × Int) → ℕ → Except String (List (Trace α))
  | file, [], _ => .ok file
  | file, (il, xl) :: rest, tc =>
    if tc < file.length then
      setHeaders merged
        (file.set tc (assignHeader merged (file.getD tc emptyTrace) tc il xl))
        rest (tc + 1)
    else
      .error "IndexError: trace index out of range"

/-- Embedding of `AVOModule.files_from_np` (AVO.py lines 129-229): builds the zero-filled
gradient file, assigns the five geometry header words per trace while
iterating `range(inlines[0], inlines[-1]+1)` by
`range(crosslines[0], crosslines[-1]+1)`, then `copyfile`s the finished
gradient file to the intercept, rvalue, pvalue and stderr paths. -/
def filesFromNp {α : Type} [Zero α] (inlines xlines : List Int) (S : ℕ)
    (merged : SegyVolume α) :
    Except String (List (Trace α) × List (Trace α) × List (Trace α) ×
      List (Trace α) × List (Trace α)) :=
  match setHeaders merged (zerosFile α inlines.length xlines.length S)
      ((pyRange (inlines.headD 0) (inlines.getLastD 0 + 1)).flatMap fun il =>
        (pyRange (xlines.headD 0) (xlines.getLastD 0 + 1)).map fun xl => (il, xl))
      0 with
  | .error e => .error e
  | .ok g => .ok (g, g, g, g, g)

/-- Behaviour of the header loop when it stays in range: every targeted
trace receives the five header words for its pair, data is never touched,
and positions before the starting counter are untouched. -/
theorem setHeaders_spec {α : Type} (merged : SegyVolume α) (pairs : List (Int × Int)) :
    ∀ (file : List (Trace α)) (tc : ℕ), tc + pairs.length ≤ file.length →
    ∃ out, setHeaders merged file pairs tc = .ok out ∧
      out.length = file.length ∧
      (∀ n, (out.getD n emptyTrace).data = (file.getD n emptyTrace).data) ∧
      (∀ n, n < tc → out.getD n emptyTrace = file.getD n emptyTrace) ∧
      (∀ q, q < pairs.length →
        out.getD (tc + q) emptyTrace =
          assignHeader merged (file.getD (tc + q) emptyTrace) (tc + q)
            (pairs.getD q (0, 0)).1 (pairs.getD q (0, 0)).2) := by
  induction pairs with
  | nil =>
    intro file tc h
    exact ⟨file, rfl, rfl, fun n => rfl, fun n _ => rfl,
      fun q hq => absurd hq (by simp)⟩
  | cons pr rest ih =>
    intro file tc h
    obtain ⟨il, xl⟩ := pr
    have htc : tc < file.length := by
      simp only [List.length_cons] at h
      omega
    have hlen' : (tc + 1) + rest.length ≤
        (file.set tc (assignHeader merged (file.getD tc emptyTrace) tc il xl)).length := by
      rw [List.length_set]
      simp only [List.length_cons] at h
      omega
    obtain ⟨out, hout, holen, hodata, holow, hoh⟩ := ih _ (tc + 1) hlen'
    have hset_len :
        (file.set tc (assignHeader merged (file.getD tc emptyTrace) tc il xl)).length =
          file.length := List.length_set _ _ _
    have hfd : ∀ n, n ≠ tc →
        (file.set tc (assignHeader merged (file.getD tc emptyTrace) tc il xl)).getD n
          emptyTrace = file.getD n emptyTrace := by
      intro n hn
      by_cases hlt : n < file.length
      · rw [List.getD_eq_getElem _ emptyTrace (by rw [hset_len]; exact hlt),
          List.getD_eq_getElem _ emptyTrace hlt,
          List.getElem_set_ne (fun hh => hn hh.symm)]
      · rw [List.getD_eq_default _ _ (by rw [hset_len]; omega),
          List.getD_eq_default _ _ (by omega)]
    have hfd_tc :
        (file.set tc (assignHeader merged (file.getD tc emptyTrace) tc il xl)).getD tc
          emptyTrace = assignHeader merged (file.getD tc emptyTrace) tc il xl := by
      rw [List.getD_eq_getElem _ emptyTrace (by rw [hset_len]; exact htc),
        List.getElem_set_self]
    refine ⟨out, ?_, ?_, ?_, ?_, ?_⟩
    · show setHeaders merged file ((il, xl) :: rest) tc = .ok out
      simp only [setHeaders]
      rw [if_pos htc]
      exact hout
    · rw [holen, hset_len]
    · intro n
      rw [hodata n]
      by_cases hn : n = tc
      · subst hn
        rw [hfd_tc]
        rfl
      · rw [hfd n hn]
    · intro n hn
      rw [holow n (by omega), hfd n (by omega)]
    · intro q hq
      cases q with
      | zero =>
        rw [Nat.add_zero, holow tc (by omega), hfd_tc]
        rfl
      | succ q' =>
        have hq' : q' < rest.length := by
          simp only [List.length_cons] at hq
          omega
        have hidx : tc + (q' + 1) = (tc + 1) + q' := by omega
        rw [hidx, hoh q' hq', hfd ((tc + 1) + q') (by omega)]
        rfl

/-- C8 (amended).  When the inline and crossline number lists are consecutive
integer ranges (so that `range(lines[0], lines[-1]+1)` reproduces them), the
five attribute files are created successfully and identically (the gradient
file and its four copies), zero-filled, with one trace per (inline,
crossline) pair, and the trace at grid position (i, j) carries the
coordinate scalar, cdp_x and cdp_y of the merged volume's first-offset trace
at the same position together with the pair's line numbers. -/
theorem attr_files_creation {α : Type} [Zero α] (inlines xlines : List Int) (S : ℕ)
    (merged : SegyVolume α)
    (hI : inlines = pyRange (inlines.headD 0) (inlines.getLastD 0 + 1))
    (hX : xlines = pyRange (xlines.headD 0) (xlines.getLastD 0 + 1))
    (i j : ℕ) (hi : i < inlines.length) (hj : j < xlines.length) :
    ∃ g, filesFromNp inlines xlines S merged = .ok (g, g, g, g, g) ∧
      g.length = inlines.length * xlines.length ∧
      (∀ t ∈ g, t.data = List.replicate S 0) ∧
      ((g.getD (i * xlines.length + j) emptyTrace).header.scalco =
        (stakedHeader merged (i * xlines.length + j)).scalco ∧
       (g.getD (i * xlines.length + j) emptyTrace).header.cdpx =
        (stakedHeader merged (i * xlines.length + j)).cdpx ∧
       (g.getD (i * xlines.length + j) emptyTrace).header.cdpy =
        (stakedHeader merged (i * xlines.length + j)).cdpy ∧
       (g.getD (i * xlines.length + j) emptyTrace).header.iline = inlines.getD i 0 ∧
       (g.getD (i * xlines.length + j) emptyTrace).header.xline = xlines.getD j 0) := by
  have hplen : (inlines.flatMap fun il => xlines.map fun xl => (il, xl)).length =
      inlines.length * xlines.length :=
    length_flatMap_const _ _ xlines.length (fun a _ => List.length_map _ _)
  have hbase : (zerosFile α inlines.length xlines.length S).length =
      inlines.length * xlines.length := List.length_replicate _ _
  obtain ⟨out, hout, holen, hodata, holow, hoh⟩ :=
    setHeaders_spec merged (inlines.flatMap fun il => xlines.map fun xl => (il, xl))
      (zerosFile α inlines.length xlines.length S) 0 (by omega)
  have hq : i * xlines.length + j <
      (inlines.flatMap fun il => xlines.map fun xl => (il, xl)).length := by
    rw [hplen]
    have h3 : (i + 1) * xlines.length ≤ inlines.length * xlines.length :=
      Nat.mul_le_mul_right _ (Nat.succ_le_of_lt hi)
    have h2 : i * xlines.length + xlines.length = (i + 1) * xlines.length := by ring
    omega
  refine ⟨out, ?_, ?_, ?_, ?_⟩
  · unfold filesFromNp
    rw [← hI, ← hX, hout]
  · rw [holen, hbase]
  · intro t ht
    rcases List.mem_iff_getElem.mp ht with ⟨n, hn, rfl⟩
    have hn' : n < (zerosFile α inlines.length xlines.length S).length := by
      rw [← holen]
      exact hn
    rw [← List.getD_eq_getElem out emptyTrace hn, hodata n,
      List.getD_eq_getElem _ emptyTrace hn']
    unfold zerosFile
    rw [List.getElem_replicate]
  · have hmain := hoh (i * xlines.length + j) hq
    rw [Nat.zero_add] at hmain
    have hpget : (inlines.flatMap fun il => xlines.map fun xl => (il, xl)).getD
        (i * xlines.length + j) (0, 0) = (inlines.getD i 0, xlines.getD j 0) := by
      rw [flatMap_getD_const inlines _ xlines.length
        (fun a _ => List.length_map _ _) i j hi hj (0, 0) 0]
      rw [List.getD_eq_getElem _ _ (by rw [List.length_map]; exact hj),
        List.getElem_map, List.getD_eq_getElem xlines 0 hj]
    have hbq : i * xlines.length + j <
        (zerosFile α inlines.length xlines.length S).length := by
      rw [hbase, ← hplen]
      exact hq
    have hbget : (zerosFile α inlines.length xlines.length S).getD
        (i * xlines.length + j) emptyTrace = ⟨headerZero, List.replicate S 0⟩ := by
      rw [List.getD_eq_getElem _ _ hbq]
      unfold zerosFile
      rw [List.getElem_replicate]
    rw [hmain, hpget, hbget]
    unfold assignHeader
    exact ⟨rfl, rfl, rfl, rfl, rfl⟩

/-- A merged volume on the consecutive 2-by-1 grid with two offsets, over
ℚ, with distinguishable coordinates per gather. -/
def mergedW8 : SegyVolume ℚ :=
  ⟨[1, 2], [7], [0], [5, 10],
   [⟨⟨0, 0, 0, 0, 0, 5, -100, 1, 4000, 111, 211, 1, 7⟩, [0]⟩,
    ⟨⟨0, 0, 0, 0, 0, 10, -100, 1, 4000, 111, 211, 1, 7⟩, [0]⟩,
    ⟨⟨0, 0, 0, 0, 0, 5, -100, 1, 4000, 112, 212, 2, 7⟩, [0]⟩,
    ⟨⟨0, 0, 0, 0, 0, 10, -100, 1, 4000, 112, 212, 2, 7⟩, [0]⟩]⟩

/-- Witness for `attr_files_creation` on a consecutive 2-by-1 grid at
(i, j) = (1, 0). -/
theorem attr_files_creation_witness :
    (([1, 2] : List Int) =
      pyRange (([1, 2] : List Int).headD 0) (([1, 2] : List Int).getLastD 0 + 1) ∧
     ([7] : List Int) =
      pyRange (([7] : List Int).headD 0) (([7] : List Int).getLastD 0 + 1)) ∧
    (∃ g, filesFromNp [1, 2] [7] 1 mergedW8 = .ok (g, g, g, g, g) ∧
      g.length = ([1, 2] : List Int).length * ([7] : List Int).length ∧
      (∀ t ∈ g, t.data = List.replicate 1 0) ∧
      ((g.getD (1 * ([7] : List Int).length + 0) emptyTrace).header.scalco =
        (stakedHeader mergedW8 (1 * ([7] : List Int).length + 0)).scalco ∧
       (g.getD (1 * ([7] : List Int).length + 0) emptyTrace).header.cdpx =
        (stakedHeader mergedW8 (1 * ([7] : List Int).length + 0)).cdpx ∧
       (g.getD (1 * ([7] : List Int).length + 0) emptyTrace).header.cdpy =
        (stakedHeader mergedW8 (1 * ([7] : List Int).length + 0)).cdpy ∧
       (g.getD (1 * ([7] : List Int).length + 0) emptyTrace).header.iline =
        ([1, 2] : List Int).getD 1 0 ∧
       (g.getD (1 * ([7] : List Int).length + 0) emptyTrace).header.xline =
        ([7] : List Int).getD 0 0)) :=
  ⟨⟨by decide, by decide⟩,
   attr_files_creation [1, 2] [7] 1 mergedW8 (by decide) (by decide) 1 0
     (by decide) (by decide)⟩

/-- A merged volume whose inline numbering is NOT consecutive. -/
def mergedSparse : SegyVolume ℚ :=
  ⟨[1, 3], [1], [0], [5], [⟨headerZero, [0]⟩, ⟨headerZero, [0]⟩]⟩

/-- Counterexample to C8 as stated: for the non-consecutive inline numbering
[1, 3] the header loop iterates `range(1, 4)` (three pairs) over a file with
only two traces, so the creation of the attribute files crashes with an
IndexError instead of producing header-matched volumes. -/
theorem attr_files_creation_counterexample :
    mergedSparse.ilines = [1, 3] ∧
    filesFromNp [1, 3] [1] 1 mergedSparse =
      .error "IndexError: trace index out of range" := by
  exact ⟨rfl, rfl⟩
